import Mathlib

/-!
Verification of AstroTuxLauncher against its specification.

The Python sources are shallowly embedded: strings are `List Char`,
Python dicts (which preserve insertion order) are ordered association
lists, and fallible code returns `Option`.  Definitions follow the
source files `astro/inimulticonfig.py`, `astro/rcon.py` and
`astro/dedicatedserver.py`.
-/

namespace AstroTux

/-! ## Python string primitives (`List Char` model) -/

/-- Whitespace characters removed by Python `str.strip()` (common ASCII set). -/
def isPySpace (c : Char) : Bool :=
  c = ' ' || c = '\t' || c = '\n' || c = '\r' || c = '\x0b' || c = '\x0c'

/-- Python `str.strip()`: drop leading and trailing whitespace. -/
def pstrip (l : List Char) : List Char :=
  List.rdropWhile isPySpace (l.dropWhile isPySpace)

/-- Python `str.split("=", 1)`: split at the first `=`; `none` if no `=` occurs. -/
def splitEq : List Char → Option (List Char × List Char)
  | [] => none
  | c :: cs =>
    if c = '=' then some ([], cs)
    else (splitEq cs).map (fun p => (c :: p.1, p.2))

/-- ASCII lower-casing of one character, as used on the candidate boolean words. -/
def lowerCh (c : Char) : Char :=
  if 'A' ≤ c ∧ c ≤ 'Z' then Char.ofNat (c.toNat + 32) else c

/-- ASCII `str.lower()`. -/
def lowerStr (l : List Char) : List Char := l.map lowerCh

/-- The table `INIMultiConfig.BOOLEAN_STATES`. -/
def boolWords : List (List Char × Bool) :=
  [("yes".data, true), ("true".data, true), ("on".data, true),
   ("no".data, false), ("false".data, false), ("off".data, false)]

/-- Find a value by key in an association list (insertion order preserved). -/
def findVal {β : Type} : List (List Char × β) → List Char → Option β
  | [], _ => none
  | (k0, v) :: rest, k => if k0 = k then some v else findVal rest k

/-- Membership of `value.lower()` in `BOOLEAN_STATES`, with the mapped boolean. -/
def asBoolWord (l : List Char) : Option Bool := findVal boolWords (lowerStr l)

/-! ## INI data model (`astro/inimulticonfig.py`)

A value read from an INI file is a string, or a boolean when the raw text
is one of the `BOOLEAN_STATES` words.  A key maps either to one scalar or,
after duplicate key lines, to a list of scalars. -/

/-- Scalar INI value. -/
inductive IValue
  | vstr (s : List Char)
  | vbool (b : Bool)
  deriving DecidableEq, Repr

/-- Entry stored under one key: a scalar or a list built from duplicates. -/
inductive VEntry
  | scalar (v : IValue)
  | vlist (vs : List IValue)
  deriving DecidableEq, Repr

/-- Properties of one section, in insertion order. -/
abbrev Props := List (List Char × VEntry)

/-- The whole config dictionary: sections in insertion order. -/
abbrev IniDict := List (List Char × Props)

/-- Update the value at key `k` in place (Python dict assignment keeps position). -/
def updAssoc {β : Type} : List (List Char × β) → List Char → (β → β) → List (List Char × β)
  | [], _, _ => []
  | (k0, v0) :: rest, k, f =>
    if k0 = k then (k0, f v0) :: rest else (k0, v0) :: updAssoc rest k f

/-- The statement `self._dict[newSection] = \x7b\x7d` in `read_file`. -/
def setSec (d : IniDict) (s : List Char) : IniDict :=
  if (findVal d s).isSome then updAssoc d s (fun _ => []) else d ++ [(s, [])]

/-- Insert a value under a key following `read_file`: fresh keys become scalars,
a second occurrence starts a list, later ones append. -/
def addVal (ps : Props) (k : List Char) (v : IValue) : Props :=
  match findVal ps k with
  | none => ps ++ [(k, .scalar v)]
  | some (.scalar w) => updAssoc ps k (fun _ => .vlist [w, v])
  | some (.vlist ws) => updAssoc ps k (fun _ => .vlist (ws ++ [v]))

/-- Insert a value in the named section of the dictionary. -/
def addProp (d : IniDict) (s : List Char) (k : List Char) (v : IValue) : IniDict :=
  updAssoc d s (fun ps => addVal ps k v)

/-- Reader state of `read_file`: the current section and the dictionary so far. -/
structure RState where
  cur : Option (List Char)
  dict : IniDict
  deriving Repr

/-- Conversion of a stripped raw value into the stored scalar
(the `BOOLEAN_STATES` lookup in `read_file`). -/
def toIValue (value : List Char) : IValue :=
  match asBoolWord value with
  | some b => IValue.vbool b
  | none => IValue.vstr value

/-- The section name parsed from a stripped header line. -/
def secName (line : List Char) : List Char := pstrip ((line.drop 1).dropLast)

/-- One iteration of the `read_file` loop on an already-stripped line. -/
def lineStepStripped (st : RState) (line : List Char) : RState :=
  match splitEq line with
  | none =>
    if 2 ≤ line.length ∧ line.head? = some '[' ∧ line.getLast? = some ']' then
      if 0 < (secName line).length then
        { cur := some (secName line), dict := setSec st.dict (secName line) }
      else st
    else st
  | some (k0, v0) =>
    match st.cur with
    | none => st
    | some sec =>
      { st with dict := addProp st.dict sec (pstrip k0) (toIValue (pstrip v0)) }

/-- One iteration of the `read_file` loop on a raw line (lines are stripped first). -/
def lineStep (st : RState) (rawLine : List Char) : RState :=
  lineStepStripped st (pstrip rawLine)

/-- The body of `INIMultiConfig.read_file` over a list of raw lines. -/
def readLines (lines : List (List Char)) : IniDict :=
  (lines.foldl lineStep { cur := none, dict := [] }).dict

/-- Rendering of a scalar into the written line (`f-string` formatting). -/
def renderVal : IValue → List Char
  | .vstr s => s
  | .vbool b => if b then "True".data else "False".data

/-- The lines written for one key in `write_file`. -/
def renderProp (k : List Char) : VEntry → List (List Char)
  | .scalar v => [k ++ '=' :: renderVal v]
  | .vlist vs => vs.map (fun v => k ++ '=' :: renderVal v)

/-- The lines written by `INIMultiConfig.write_file`: a header per section,
one line per value, and a blank line after each section. -/
def writeIni (d : IniDict) : List (List Char) :=
  d.flatMap (fun sp =>
    ('[' :: sp.1 ++ [']']) :: (sp.2.flatMap (fun kv => renderProp kv.1 kv.2) ++ [[]]))

/-- The lines `write_file` emits for one section. -/
def sectionLines (sp : List Char × Props) : List (List Char) :=
  ('[' :: sp.1 ++ [']']) :: (sp.2.flatMap (fun kv => renderProp kv.1 kv.2) ++ [[]])

/-- Python `content.split("\n")`. -/
def splitNl : List Char → List (List Char)
  | [] => [[]]
  | c :: cs =>
    if c = '\n' then [] :: splitNl cs
    else
      match splitNl cs with
      | [] => [[c]]
      | l :: ls => (c :: l) :: ls

/-- File content produced by `write_file` (each line is `\n`-terminated). -/
def fileWrite (d : IniDict) : List Char :=
  (writeIni d).flatMap (fun l => l ++ ['\n'])

/-- Dictionary produced by `read_file` from raw file content. -/
def fileRead (content : List Char) : IniDict :=
  readLines (splitNl content)

/-! ## RCON client (`astro/rcon.py`)

Bytes are `List Nat`; the `json.loads(raw.decode())` composite is an
oracle parameter `jsonParse` (it is external library code), `none`
standing for any exception. -/

/-- Python value returned by `AstroRCON.parseRawData`:
`None`, a parsed JSON value, or raw bytes. -/
inductive ParseOut (J : Type)
  | pynone
  | json (j : J)
  | bytes (b : List Nat)
  deriving DecidableEq, Repr

/-- Trailing-whitespace strip on bytes (`bytes.rstrip()`). -/
def brstrip (b : List Nat) : List Nat :=
  List.rdropWhile (fun n => n = 32 || n = 9 || n = 10 || n = 13 || n = 11 || n = 12) b

/-- The static method `AstroRCON.parseRawData`.  The argument is the value
produced by `_recvall` (`none` models Python `None`).  A `raw_data != b""`
test guards the whole body; on a JSON failure the except branch returns
`raw_data`, which was already reassigned to its rstripped form. -/
def parseRawData {J : Type} (jsonParse : List Nat → Option J) :
    Option (List Nat) → ParseOut J
  | none => ParseOut.pynone
  | some b =>
    if b = [] then ParseOut.pynone
    else
      match jsonParse (brstrip b) with
      | some j => ParseOut.json j
      | none => ParseOut.bytes (brstrip b)

/-- Connection state of `AstroRCON`: the `connected` flag, whether
`self.socket` currently holds a socket object, and how many times
`close()` has been called (to observe the close-exactly-once property). -/
structure RconState where
  connected : Bool
  sockOpen : Bool
  closeCount : Nat
  deriving DecidableEq, Repr

/-- The `disconnect` method: clear the flag, then `try: socket.close();
socket = None` (a `None` socket raises before closing, swallowed). -/
def disconnect (st : RconState) : RconState :=
  { connected := false
    sockOpen := false
    closeCount := st.closeCount + (if st.sockOpen then 1 else 0) }

/-- Outcome of `socket.sendall`. -/
inductive SendRes
  | ok
  | err
  deriving DecidableEq, Repr

/-- Outcome of the `_recvall` receive loop: the accumulated bytes of the
chunks up to the first short read, or an exception. -/
inductive RecvRes
  | data (b : List Nat)
  | err
  deriving DecidableEq, Repr

/-- Python value returned by `_sendreceive`. -/
inductive RconRet (J : Type)
  | pynone
  | pytrue
  | json (j : J)
  | bytes (b : List Nat)
  deriving DecidableEq, Repr

/-- Map the parse result into the `_sendreceive` return value. -/
def ofParse {J : Type} : ParseOut J → RconRet J
  | .pynone => .pynone
  | .json j => .json j
  | .bytes b => .bytes b

/-- The method `AstroRCON._sendreceive` with the two socket outcomes as
oracles.  Returns the state after the call and the Python return value. -/
def sendreceive {J : Type} (st : RconState) (data : List Nat)
    (sendRes : SendRes) (recvRes : RecvRes)
    (jsonParse : List Nat → Option J) (recvdata : Bool) :
    RconState × RconRet J :=
  if ¬ st.connected ∨ data = [] then (st, .pynone)
  else
    match sendRes with
    | .err => (disconnect st, .pynone)
    | .ok =>
      if ¬ recvdata then (st, .pytrue)
      else
        (st, ofParse (parseRawData jsonParse
          (if ¬ st.connected then none
           else match recvRes with
             | .data b => some b
             | .err => none)))

/-! ## Supervisor data model (`astro/dedicatedserver.py`) -/

/-- The `ServerStatus` enum. -/
inductive ServerStatus
  | OFF
  | STARTING
  | RUNNING
  | STOPPING
  deriving DecidableEq, Repr

/-- One record of `PlayerList.playerInfo` (the fields the supervisor
reads: GUID, name and the in-game flag). -/
structure PlayerInfo where
  playerGuid : String
  playerName : String
  inGame : Bool
  deriving DecidableEq, Repr

/-- The `ServerStatistics` snapshot (the field the supervisor mutates
and branches on). -/
structure ServerStat where
  isEnforcingWhitelist : Bool
  deriving DecidableEq, Repr

/-- The `GameList` snapshot (the field the diff logic reads). -/
structure GameList where
  activeSaveName : Option String
  deriving DecidableEq, Repr

/-- Supervisor state: the snapshot triple, the RCON connected flag and
the status field of `AstroDedicatedServer`. -/
structure SrvState where
  curr_server_stat : Option ServerStat
  curr_player_list : Option (List PlayerInfo)
  curr_game_list : Option GameList
  rcon_connected : Bool
  status : ServerStatus
  deriving DecidableEq, Repr

/-! ### Player diff (`server_loop`, lines 527-570) -/

/-- A join/leave notification sent to the notification manager. -/
inductive DiffEvent
  | join (name guid : String)
  | leave (name guid : String)
  deriving DecidableEq, Repr

/-- `[pi for pi in playerInfo if pi.inGame]`. -/
def onlinePlayers (l : List PlayerInfo) : List PlayerInfo :=
  l.filter (fun pi => pi.inGame)

/-- GUIDs of the in-game players. -/
def onlineGuids (l : List PlayerInfo) : List String :=
  (onlinePlayers l).map (fun pi => pi.playerGuid)

/-- `list(set(a) - set(b))` — only membership and emptiness of the
result are consumed, so the (unspecified) Python set order is modelled
as first-occurrence order. -/
def guidSetDiff (a b : List String) : List String :=
  (a.filter (fun g => ¬ g ∈ b)).dedup

/-- The join half of the diff: guarded by a strictly grown player count;
events are built from the records of the NEW player list. -/
def joinEvents (prev curr : List PlayerInfo) : List DiffEvent :=
  if (onlinePlayers prev).length < (onlinePlayers curr).length then
    if 0 < (guidSetDiff (onlineGuids curr) (onlineGuids prev)).length then
      (curr.filter (fun pi => pi.playerGuid ∈ guidSetDiff (onlineGuids curr) (onlineGuids prev))).map
        (fun pi => DiffEvent.join pi.playerName pi.playerGuid)
    else []
  else []

/-- The leave half of the diff: guarded by a strictly shrunk player
count; events are still built from the records of the NEW player list. -/
def leaveEvents (prev curr : List PlayerInfo) : List DiffEvent :=
  if (onlinePlayers curr).length < (onlinePlayers prev).length then
    if 0 < (guidSetDiff (onlineGuids prev) (onlineGuids curr)).length then
      (curr.filter (fun pi => pi.playerGuid ∈ guidSetDiff (onlineGuids prev) (onlineGuids curr))).map
        (fun pi => DiffEvent.leave pi.playerName pi.playerGuid)
    else []
  else []

/-- All join/leave events emitted for one pair of successive
successful polls, in emission order. -/
def diffEvents (prev curr : List PlayerInfo) : List DiffEvent :=
  joinEvents prev curr ++ leaveEvents prev curr

/-! ### Snapshot refresh (`update_server_info`, lines 1019-1050) -/

/-- The method `update_server_info`: the three RCON replies are oracles
(`none` = the reply was not a dict).  Snapshots are assigned one at a
time, in query order, each directly after its query succeeds. -/
def update_server_info (st : SrvState) (r1 : Option ServerStat)
    (r2 : Option (List PlayerInfo)) (r3 : Option GameList) : SrvState × Bool :=
  if ¬ st.rcon_connected ∨ st.status ≠ ServerStatus.RUNNING then (st, false)
  else
    match r1 with
    | none => (st, false)
    | some s1 =>
      match r2 with
      | none => ({ st with curr_server_stat := some s1 }, false)
      | some p2 =>
        match r3 with
        | none =>
          ({ st with
              curr_server_stat := some s1
              curr_player_list := some p2 }, false)
        | some g3 =>
          ({ st with
              curr_server_stat := some s1
              curr_player_list := some p2
              curr_game_list := some g3 }, true)

/-! ### Whitelist toggle (`set_whitelist_enabled`, lines 942-968) -/

/-- The 67-character ack prefix tested by `set_whitelist_enabled`. -/
def denyUnlistedAck : List Char :=
  "UAstroServerCommExecutor::DSSetDenyUnlisted: SetDenyUnlistedPlayers".data

/-- The method `set_whitelist_enabled`.  `resp` is the decoded
`DSSetDenyUnlisted` reply (`none` = not a bytes reply).  Returns the new
state, the list of `DSSetDenyUnlisted` arguments actually sent over
RCON, and the Python return (`none` models the `AttributeError` raised
when the ack succeeds while `curr_server_stat` is `None`). -/
def set_whitelist_enabled (st : SrvState) (enabled : Bool)
    (resp : Option (List Char)) : SrvState × List Bool × Option Bool :=
  if ¬ st.rcon_connected ∨ st.status ≠ ServerStatus.RUNNING then (st, [], some false)
  else
    match st.curr_server_stat with
    | some stat =>
      if stat.isEnforcingWhitelist = enabled then (st, [], some true)
      else
        match resp with
        | none => (st, [enabled], some false)
        | some res =>
          if res.take 67 = denyUnlistedAck ∧ res.getLast? = some '1' then
            ({ st with curr_server_stat := some { stat with isEnforcingWhitelist := enabled } },
              [enabled], some true)
          else (st, [enabled], some false)
    | none =>
      match resp with
      | none => (st, [enabled], some false)
      | some res =>
        if res.take 67 = denyUnlistedAck ∧ res.getLast? = some '1' then
          (st, [enabled], none)
        else (st, [enabled], some false)

/-! ### Shutdown / kill (lines 843-903) -/

/-- The method `shutdown`: requires a connected RCON; on a successful
`DSServerShutdown` send the snapshot triple is cleared and the status
set to STOPPING. -/
def shutdown (st : SrvState) (sendOk : Bool) : SrvState × Bool :=
  if ¬ st.rcon_connected then (st, false)
  else if sendOk then
    ({ st with
        curr_server_stat := none
        curr_player_list := none
        curr_game_list := none
        status := ServerStatus.STOPPING }, true)
  else (st, false)

/-- The method `kill`: runs `wineserver -k` and sets the status to OFF
unconditionally. -/
def kill (st : SrvState) : SrvState :=
  { st with status := ServerStatus.OFF }

/-- The tail of `server_loop`: once the loop has broken (child exit
observed or status OFF), `kill()` runs. -/
def server_loop_finish (st : SrvState) : SrvState := kill st

/-- The edges of the lifecycle DAG named by the specification. -/
def dagEdges : List (ServerStatus × ServerStatus) :=
  [(ServerStatus.OFF, ServerStatus.STARTING),
   (ServerStatus.STARTING, ServerStatus.RUNNING),
   (ServerStatus.RUNNING, ServerStatus.STOPPING),
   (ServerStatus.STOPPING, ServerStatus.OFF)]

/-! ### Registration wait (`start`, lines 749-823) -/

/-- One iteration's observation of the registration-wait loop:
an exception (rate limit), a non-OK API status, or an OK response
carrying the lobby ids, the current time and the child poll result. -/
inductive RegPoll
  | fail
  | notOK
  | ok (lobbyIDs : List String) (now : Nat) (procExit : Option Int)
  deriving DecidableEq, Repr

/-- Mutable state of the registration wait. -/
structure RegState where
  registered : Bool
  lobby : Option String
  interval : Nat
  deriving DecidableEq, Repr

/-- One iteration of the `while not self.registered` body. The second
component is `some false` when `start()` returns early (child died),
`none` to keep looping. -/
def regStep (old : List String) (start : Nat) (st : RegState) (p : RegPoll) :
    RegState × Option Bool :=
  match p with
  | .fail =>
    ({ st with interval := if st.interval < 30 then st.interval + 1 else st.interval }, none)
  | .notOK => (st, none)
  | .ok ids now procExit =>
    match procExit with
    | some _ =>
      (if (ids.filter (fun i => ¬ i ∈ old)) ≠ [] ∧ now - start > 15 then
        { st with registered := true, lobby := ids.head? } else st, some false)
    | none =>
      (if (ids.filter (fun i => ¬ i ∈ old)) ≠ [] ∧ now - start > 15 then
        { st with registered := true, lobby := ids.head? } else st, none)

/-- The registration-wait loop over a finite trace of observations.
`some true` = loop exited with `registered`; `none` = trace exhausted
while still looping; `some false` = `start()` returned `False`. -/
def regWait (old : List String) (start : Nat) :
    RegState → List RegPoll → RegState × Option Bool
  | st, [] => if st.registered then (st, some true) else (st, none)
  | st, p :: ps =>
    if st.registered then (st, some true)
    else
      match regStep old start st p with
      | (st1, some r) => (st1, some r)
      | (st1, none) => regWait old start st1 ps

/-- The registration phase of `start()`: the status is STARTING during
the wait and becomes RUNNING exactly when the loop exits registered. -/
def startRegPhase (old : List String) (start : Nat) (interval0 : Nat)
    (polls : List RegPoll) : RegState × Option Bool × ServerStatus :=
  match regWait old start ⟨false, none, interval0⟩ polls with
  | (st, some true) => (st, some true, ServerStatus.RUNNING)
  | (st, r) => (st, r, ServerStatus.STARTING)

/-! ## Dedicated-server configuration (`DedicatedServerConfig`)

The dataclass is embedded with dynamic INI values (`VEntry`) for every
field without a custom codec: `dataclasses_json` assigns the raw INI
value to the field without type coercion, so a string stays a string
and a boolean a boolean.  Integer dataclass defaults are written as
their decimal strings by the `json.loads(json.dumps(...), parse_int=str)`
round trip of `read_dict`, so defaults appear here as those strings. -/

/-- The `PlayerCategory` enum (`astro/rcon.py`). -/
inductive PCat
  | UNLISTED
  | BLACKLISTED
  | WHITELISTED
  | ADMIN
  | PENDING
  | OWNER
  deriving DecidableEq, Repr

/-- The enum value strings. -/
def pcatValue : PCat → List Char
  | .UNLISTED => "Unlisted".data
  | .BLACKLISTED => "Blacklisted".data
  | .WHITELISTED => "Whitelisted".data
  | .ADMIN => "Admin".data
  | .PENDING => "Pending".data
  | .OWNER => "Owner".data

/-- The enum constructor `PlayerCategory(value)`; unknown values raise. -/
def pcatOfString (s : List Char) : Option PCat :=
  if s = "Unlisted".data then some .UNLISTED
  else if s = "Blacklisted".data then some .BLACKLISTED
  else if s = "Whitelisted".data then some .WHITELISTED
  else if s = "Admin".data then some .ADMIN
  else if s = "Pending".data then some .PENDING
  else if s = "Owner".data then some .OWNER
  else none

/-- A `PlayerProperties` entry of the DS config. -/
structure PlayerProps where
  PlayerFirstJoinName : List Char
  PlayerCategory : PCat
  PlayerGuid : List Char
  PlayerRecentJoinName : List Char
  deriving DecidableEq, Repr

/-- `PlayerProperties.to_string`. -/
def pp_to_string (p : PlayerProps) : List Char :=
  '(' :: ("PlayerFirstJoinName=\"".data ++ p.PlayerFirstJoinName
    ++ "\",PlayerCategory=".data ++ pcatValue p.PlayerCategory
    ++ ",PlayerGuid=\"".data ++ p.PlayerGuid
    ++ "\",PlayerRecentJoinName=\"".data ++ p.PlayerRecentJoinName
    ++ "\"".data) ++ [')']

/-- Split at the first occurrence of a character (as `str.split(c, 1)`). -/
def splitAtChar (q : Char) : List Char → Option (List Char × List Char)
  | [] => none
  | c :: cs =>
    if c = q then some ([], cs)
    else (splitAtChar q cs).map (fun p => (c :: p.1, p.2))

theorem splitAtChar_shrinks {q : Char} :
    ∀ {l a b : List Char}, splitAtChar q l = some (a, b) → b.length < l.length := by
  intro l
  induction l with
  | nil => intro a b h; exact absurd h (by simp [splitAtChar])
  | cons c cs ih =>
    intro a b h
    simp only [splitAtChar] at h
    by_cases hc : c = q
    · rw [if_pos hc] at h
      have : cs = b := ((Prod.mk.injEq _ _ _ _).mp (Option.some_inj.mp h)).2
      simp [← this]
    · rw [if_neg hc] at h
      cases hsp : splitAtChar q cs with
      | none => rw [hsp] at h; exact absurd h (by simp)
      | some p =>
        rw [hsp] at h
        obtain ⟨p1, p2⟩ := p
        have h2 : c :: p1 = a ∧ p2 = b := by simpa using h
        have hlen := ih hsp
        rw [← h2.2]
        simp only [List.length_cons]
        omega

/-- The global non-greedy substitution `re.sub(q(.*?)q, \x5c1, s)` for a
quote character `q`: each shortest quoted span loses its quotes. -/
def subQuoteF (q : Char) : Nat → List Char → List Char
  | 0, l => l
  | fuel + 1, l =>
    match l with
    | [] => []
    | c :: cs =>
      if c = q then
        match splitAtChar q cs with
        | some (inner, after) => inner ++ subQuoteF q fuel after
        | none => c :: cs
      else c :: subQuoteF q fuel cs

def subQuote (q : Char) (l : List Char) : List Char := subQuoteF q l.length l

/-- The quote-removal step of `PlayerProperties.from_string`:
single-quote spans are stripped first, then double-quote spans. -/
def stripQuotes (v : List Char) : List Char :=
  subQuote '\"' (subQuote '\x27' v)

/-- The `re.search(r"\((.*)\)", string)` step: the greedy match runs
from the first `(` to the last `)` after it; `none` when absent. -/
def reParen (s : List Char) : Option (List Char) :=
  match s.dropWhile (fun c => c ≠ '(') with
  | [] => none
  | _ :: rest =>
    match (rest.reverse.dropWhile (fun c => c ≠ ')')) with
    | [] => none
    | _ :: revInner => some revInner.reverse

/-- Split on every comma (`str.split(",")`), quote-blind. -/
def splitComma : List Char → List (List Char)
  | [] => [[]]
  | c :: cs =>
    if c = ',' then [] :: splitComma cs
    else
      match splitComma cs with
      | [] => [[c]]
      | l :: ls => (c :: l) :: ls

/-- Accumulator for the `kwargs` dict of `from_string` (later duplicate
keys overwrite earlier ones, as in a Python dict). -/
structure PPAccum where
  firstJoin : Option (List Char)
  category : Option PCat
  guid : Option (List Char)
  recentJoin : Option (List Char)
  deriving Repr

/-- Processing of one `key=value` fragment of `from_string`: fragments
without `=` raise; recognized keys are cast (the category cast can
raise); unknown keys are ignored. -/
def ppArg (acc : PPAccum) (arg : List Char) : Option PPAccum :=
  match splitEq arg with
  | none => none
  | some (k0, v0) =>
    let key := pstrip k0
    let value := stripQuotes (pstrip v0)
    if key = "PlayerFirstJoinName".data then some { acc with firstJoin := some value }
    else if key = "PlayerCategory".data then
      match pcatOfString value with
      | some c => some { acc with category := some c }
      | none => none
    else if key = "PlayerGuid".data then some { acc with guid := some value }
    else if key = "PlayerRecentJoinName".data then some { acc with recentJoin := some value }
    else some acc

/-- `PlayerProperties.from_string`; `none` models a raised `ValueError`
or enum cast failure. -/
def pp_from_string (s : List Char) : Option PlayerProps :=
  match reParen s with
  | none => none
  | some inner =>
    match (splitComma inner).foldlM ppArg ⟨none, none, none, none⟩ with
    | none => none
    | some acc =>
      some { PlayerFirstJoinName := acc.firstJoin.getD []
             PlayerCategory := acc.category.getD PCat.UNLISTED
             PlayerGuid := acc.guid.getD []
             PlayerRecentJoinName := acc.recentJoin.getD [] }

/-- `PlayerProperties.list_encoder`: one element is encoded as a bare
string, otherwise as a list of strings. -/
def pp_list_encoder (pps : List PlayerProps) : VEntry :=
  match pps with
  | [p] => VEntry.scalar (IValue.vstr (pp_to_string p))
  | _ => VEntry.vlist (pps.map (fun p => IValue.vstr (pp_to_string p)))

/-- `PlayerProperties.list_decoder` on an INI value: a bare string is a
one-element list; a list decodes elementwise; a boolean raises. -/
def pp_list_decoder : VEntry → Option (List PlayerProps)
  | .scalar (.vstr s) => (pp_from_string s).map (fun p => [p])
  | .scalar (.vbool _) => none
  | .vlist vs =>
    vs.mapM (fun v =>
      match v with
      | IValue.vstr s => pp_from_string s
      | IValue.vbool _ => none)

/-! ### The fake-float codec (`encode_fakefloat` / `decode_fakefloat`) -/

/-- Fuel-driven core of the decimal-digit function (any fuel at least
the number itself suffices, and for `n < 10` the fuel is irrelevant). -/
def natDigitsF : Nat → Nat → List Char
  | 0, n => [Char.ofNat (48 + n)]
  | fuel + 1, n =>
    if n < 10 then [Char.ofNat (48 + n)]
    else natDigitsF fuel (n / 10) ++ [Char.ofNat (48 + n % 10)]

/-- Decimal digits of a natural number. -/
def natDigits (n : Nat) : List Char := natDigitsF n n

/-- Decimal representation of an integer (Python `str(num)`). -/
def intToDec (n : Int) : List Char :=
  if n < 0 then '-' :: natDigits n.natAbs else natDigits n.natAbs

/-- `encode_fakefloat`: `f"\x7bstr(num)\x7d.000000"`. -/
def encode_fakefloat (n : Int) : List Char := intToDec n ++ ".000000".data

/-- ASCII digit test. -/
def isDigit (c : Char) : Bool := '0' ≤ c ∧ c ≤ '9'

/-- Numeric value of a digit string (`none` if empty or non-digit). -/
def digitsVal (l : List Char) : Option Nat :=
  if l = [] ∨ ¬ l.all isDigit then none
  else some (l.foldl (fun acc c => acc * 10 + (c.toNat - 48)) 0)

/-- Python `round` (banker's rounding) on a rational. -/
def pyRound (q : ℚ) : Int :=
  if q - ⌊q⌋ < 1/2 then ⌊q⌋
  else if 1/2 < q - ⌊q⌋ then ⌊q⌋ + 1
  else if ⌊q⌋ % 2 = 0 then ⌊q⌋ else ⌊q⌋ + 1

/-- Plain-decimal subset of Python `float(string)`: optional sign,
integer digits, optional fraction digits (exponent and special forms
are not produced by the encoder and are not modelled). -/
def pyFloat (s : List Char) : Option ℚ :=
  match pstrip s with
  | [] => none
  | t =>
    let sign : Bool := t.head? = some '-'
    let t2 := if t.head? = some '-' ∨ t.head? = some '+' then t.drop 1 else t
    match splitAtChar '.' t2 with
    | none =>
      match digitsVal t2 with
      | none => none
      | some n => some (if sign then -(n : ℚ) else (n : ℚ))
    | some (ip, fp) =>
      match digitsVal ip, digitsVal fp with
      | some i, some f =>
        some ((if sign then -1 else 1) * ((i : ℚ) + (f : ℚ) / ((10 : ℚ) ^ fp.length)))
      | _, _ => none

/-- `decode_fakefloat`: `round(float(string))`; Python `float` maps
booleans to 0/1 and raises on lists. -/
def decode_fakefloat : IValue → Option Int
  | .vbool b => some (if b then 1 else 0)
  | .vstr s => (pyFloat s).map pyRound

/-! ### The dataclass itself -/

/-- The `DedicatedServerConfig` dataclass.  Fields without a custom
codec hold the raw INI value (`VEntry`); the two framerate fields hold
the decoded integer; `ExitSemaphore` is excluded from the output when
`None`; `PlayerProperties` holds the decoded entries. -/
structure DSConfig where
  bLoadAutoSave : VEntry
  MaxServerFramerate : Int
  MaxServerIdleFramerate : Int
  bWaitForPlayersBeforeShutdown : VEntry
  PublicIP : VEntry
  ServerName : VEntry
  MaximumPlayerCount : VEntry
  OwnerName : VEntry
  OwnerGuid : VEntry
  PlayerActivityTimeout : VEntry
  ServerPassword : VEntry
  bDisableServerTravel : VEntry
  DenyUnlistedPlayers : VEntry
  VerbosePlayerProperties : VEntry
  AutoSaveGameInterval : VEntry
  BackupSaveGamesInterval : VEntry
  ServerGuid : VEntry
  ActiveSaveFileDescriptiveName : VEntry
  ServerAdvertisedName : VEntry
  ConsolePort : VEntry
  ConsolePassword : VEntry
  HeartbeatInterval : VEntry
  ExitSemaphore : Option VEntry
  PlayerProperties : List PlayerProps
  deriving DecidableEq, Repr

/-- The dataclass defaults.  `defGuid`/`defPwd` stand for the
`uuid.uuid4().hex` values fixed at class-definition time. -/
def defaultDSConfig (defGuid defPwd : List Char) : DSConfig where
  bLoadAutoSave := VEntry.scalar (IValue.vbool true)
  MaxServerFramerate := 30
  MaxServerIdleFramerate := 3
  bWaitForPlayersBeforeShutdown := VEntry.scalar (IValue.vbool false)
  PublicIP := VEntry.scalar (IValue.vstr [])
  ServerName := VEntry.scalar (IValue.vstr "Astroneer Dedicated Server".data)
  MaximumPlayerCount := VEntry.scalar (IValue.vstr "8".data)
  OwnerName := VEntry.scalar (IValue.vstr [])
  OwnerGuid := VEntry.scalar (IValue.vstr [])
  PlayerActivityTimeout := VEntry.scalar (IValue.vstr "0".data)
  ServerPassword := VEntry.scalar (IValue.vstr [])
  bDisableServerTravel := VEntry.scalar (IValue.vbool false)
  DenyUnlistedPlayers := VEntry.scalar (IValue.vbool false)
  VerbosePlayerProperties := VEntry.scalar (IValue.vbool true)
  AutoSaveGameInterval := VEntry.scalar (IValue.vstr "900".data)
  BackupSaveGamesInterval := VEntry.scalar (IValue.vstr "7200".data)
  ServerGuid := VEntry.scalar (IValue.vstr defGuid)
  ActiveSaveFileDescriptiveName := VEntry.scalar (IValue.vstr "SAVE_1".data)
  ServerAdvertisedName := VEntry.scalar (IValue.vstr [])
  ConsolePort := VEntry.scalar (IValue.vstr "1234".data)
  ConsolePassword := VEntry.scalar (IValue.vstr defPwd)
  HeartbeatInterval := VEntry.scalar (IValue.vstr "55".data)
  ExitSemaphore := none
  PlayerProperties := []

/-- Decoder for the framerate fields: absent keys take the dataclass
default; scalars go through `decode_fakefloat`; a duplicate-key list
raises inside `float()`. -/
def decodeFF (dflt : Int) : Option VEntry → Option Int
  | none => some dflt
  | some (.scalar v) => decode_fakefloat v
  | some (.vlist _) => none

/-- Decoder for the `PlayerProperties` field: absent keys give the
empty list. -/
def decodePP : Option VEntry → Option (List PlayerProps)
  | none => some []
  | some e => pp_list_decoder e

/-- `DedicatedServerConfig.from_dict` on one INI section. -/
def dsconfig_from_dict (defGuid defPwd : List Char) (ps : Props) : Option DSConfig :=
  match decodeFF 30 (findVal ps "MaxServerFramerate".data),
      decodeFF 3 (findVal ps "MaxServerIdleFramerate".data),
      decodePP (findVal ps "PlayerProperties".data) with
  | some f1, some f2, some pps =>
    some
      { bLoadAutoSave :=
          (findVal ps "bLoadAutoSave".data).getD (VEntry.scalar (IValue.vbool true))
        MaxServerFramerate := f1
        MaxServerIdleFramerate := f2
        bWaitForPlayersBeforeShutdown :=
          (findVal ps "bWaitForPlayersBeforeShutdown".data).getD
            (VEntry.scalar (IValue.vbool false))
        PublicIP := (findVal ps "PublicIP".data).getD (VEntry.scalar (IValue.vstr []))
        ServerName :=
          (findVal ps "ServerName".data).getD
            (VEntry.scalar (IValue.vstr "Astroneer Dedicated Server".data))
        MaximumPlayerCount :=
          (findVal ps "MaximumPlayerCount".data).getD
            (VEntry.scalar (IValue.vstr "8".data))
        OwnerName := (findVal ps "OwnerName".data).getD (VEntry.scalar (IValue.vstr []))
        OwnerGuid := (findVal ps "OwnerGuid".data).getD (VEntry.scalar (IValue.vstr []))
        PlayerActivityTimeout :=
          (findVal ps "PlayerActivityTimeout".data).getD
            (VEntry.scalar (IValue.vstr "0".data))
        ServerPassword :=
          (findVal ps "ServerPassword".data).getD (VEntry.scalar (IValue.vstr []))
        bDisableServerTravel :=
          (findVal ps "bDisableServerTravel".data).getD
            (VEntry.scalar (IValue.vbool false))
        DenyUnlistedPlayers :=
          (findVal ps "DenyUnlistedPlayers".data).getD
            (VEntry.scalar (IValue.vbool false))
        VerbosePlayerProperties :=
          (findVal ps "VerbosePlayerProperties".data).getD
            (VEntry.scalar (IValue.vbool true))
        AutoSaveGameInterval :=
          (findVal ps "AutoSaveGameInterval".data).getD
            (VEntry.scalar (IValue.vstr "900".data))
        BackupSaveGamesInterval :=
          (findVal ps "BackupSaveGamesInterval".data).getD
            (VEntry.scalar (IValue.vstr "7200".data))
        ServerGuid :=
          (findVal ps "ServerGuid".data).getD (VEntry.scalar (IValue.vstr defGuid))
        ActiveSaveFileDescriptiveName :=
          (findVal ps "ActiveSaveFileDescriptiveName".data).getD
            (VEntry.scalar (IValue.vstr "SAVE_1".data))
        ServerAdvertisedName :=
          (findVal ps "ServerAdvertisedName".data).getD
            (VEntry.scalar (IValue.vstr []))
        ConsolePort :=
          (findVal ps "ConsolePort".data).getD (VEntry.scalar (IValue.vstr "1234".data))
        ConsolePassword :=
          (findVal ps "ConsolePassword".data).getD (VEntry.scalar (IValue.vstr defPwd))
        HeartbeatInterval :=
          (findVal ps "HeartbeatInterval".data).getD
            (VEntry.scalar (IValue.vstr "55".data))
        ExitSemaphore := findVal ps "ExitSemaphore".data
        PlayerProperties := pps }
  | _, _, _ => none

/-- `to_dict(encode_json=True)` followed by `read_dict`, as one section
body in dataclass field order (`ExitSemaphore` excluded when `None`). -/
def dsconfig_to_props (c : DSConfig) : Props :=
  [("bLoadAutoSave".data, c.bLoadAutoSave),
   ("MaxServerFramerate".data,
     VEntry.scalar (IValue.vstr (encode_fakefloat c.MaxServerFramerate))),
   ("MaxServerIdleFramerate".data,
     VEntry.scalar (IValue.vstr (encode_fakefloat c.MaxServerIdleFramerate))),
   ("bWaitForPlayersBeforeShutdown".data, c.bWaitForPlayersBeforeShutdown),
   ("PublicIP".data, c.PublicIP),
   ("ServerName".data, c.ServerName),
   ("MaximumPlayerCount".data, c.MaximumPlayerCount),
   ("OwnerName".data, c.OwnerName),
   ("OwnerGuid".data, c.OwnerGuid),
   ("PlayerActivityTimeout".data, c.PlayerActivityTimeout),
   ("ServerPassword".data, c.ServerPassword),
   ("bDisableServerTravel".data, c.bDisableServerTravel),
   ("DenyUnlistedPlayers".data, c.DenyUnlistedPlayers),
   ("VerbosePlayerProperties".data, c.VerbosePlayerProperties),
   ("AutoSaveGameInterval".data, c.AutoSaveGameInterval),
   ("BackupSaveGamesInterval".data, c.BackupSaveGamesInterval),
   ("ServerGuid".data, c.ServerGuid),
   ("ActiveSaveFileDescriptiveName".data, c.ActiveSaveFileDescriptiveName),
   ("ServerAdvertisedName".data, c.ServerAdvertisedName),
   ("ConsolePort".data, c.ConsolePort),
   ("ConsolePassword".data, c.ConsolePassword),
   ("HeartbeatInterval".data, c.HeartbeatInterval)]
  ++ (match c.ExitSemaphore with
      | some e => [("ExitSemaphore".data, e)]
      | none => [])
  ++ [("PlayerProperties".data, pp_list_encoder c.PlayerProperties)]

/-- The section name of the DS settings INI. -/
def dsSection : List Char := "/Script/Astro.AstroServerSettings".data

/-- The forced-field step of `ensure_config` on the file branch.  The
source also executes `config.HearbeatInterval = 55`, but that assigns a
misspelled attribute: the dataclass field `HeartbeatInterval` keeps its
decoded value. -/
def forceFields (c : DSConfig) : DSConfig :=
  { c with VerbosePlayerProperties := VEntry.scalar (IValue.vbool true) }

/-- The `PublicIP` fix-up of `ensure_config`.  `pubOK` abstracts
`net.valid_ip` plus the `IPy` PUBLIC-type test (external name
resolution); `resolved` is the value `net.get_public_ip()` would
return, `none` when it raises (the exception is caught and the field
kept). -/
def fixPublicIP (overwrite_ip : Bool) (resolved : Option (List Char))
    (pubOK : VEntry → Bool) (c : DSConfig) : DSConfig :=
  if overwrite_ip ∨ ¬ pubOK c.PublicIP then
    match resolved with
    | some ip => { c with PublicIP := VEntry.scalar (IValue.vstr ip) }
    | none => c
  else c

/-- `DedicatedServerConfig.ensure_config`: load or default, force
fields, fix `PublicIP`, write back.  Returns the resulting config and
the written file content; `none` models a raised exception (no write). -/
def ensure_config (fileExists : Bool) (content : List Char) (overwrite_ip : Bool)
    (resolved : Option (List Char)) (pubOK : VEntry → Bool)
    (defGuid defPwd : List Char) : Option (DSConfig × List Char) :=
  (if fileExists then
    (dsconfig_from_dict defGuid defPwd
      ((findVal (fileRead content) dsSection).getD [])).map forceFields
  else
    some (defaultDSConfig defGuid defPwd)).map
  (fun c =>
    ((fun c2 => (c2, fileWrite [(dsSection, dsconfig_to_props c2)]))
      (fixPublicIP overwrite_ip resolved pubOK c)))

/-- The first 22 entries of `dsconfig_to_props` (everything before the
optional `ExitSemaphore` and the trailing `PlayerProperties`). -/
def dsPropsCore (c : DSConfig) : Props :=
  [("bLoadAutoSave".data, c.bLoadAutoSave),
   ("MaxServerFramerate".data,
     VEntry.scalar (IValue.vstr (encode_fakefloat c.MaxServerFramerate))),
   ("MaxServerIdleFramerate".data,
     VEntry.scalar (IValue.vstr (encode_fakefloat c.MaxServerIdleFramerate))),
   ("bWaitForPlayersBeforeShutdown".data, c.bWaitForPlayersBeforeShutdown),
   ("PublicIP".data, c.PublicIP),
   ("ServerName".data, c.ServerName),
   ("MaximumPlayerCount".data, c.MaximumPlayerCount),
   ("OwnerName".data, c.OwnerName),
   ("OwnerGuid".data, c.OwnerGuid),
   ("PlayerActivityTimeout".data, c.PlayerActivityTimeout),
   ("ServerPassword".data, c.ServerPassword),
   ("bDisableServerTravel".data, c.bDisableServerTravel),
   ("DenyUnlistedPlayers".data, c.DenyUnlistedPlayers),
   ("VerbosePlayerProperties".data, c.VerbosePlayerProperties),
   ("AutoSaveGameInterval".data, c.AutoSaveGameInterval),
   ("BackupSaveGamesInterval".data, c.BackupSaveGamesInterval),
   ("ServerGuid".data, c.ServerGuid),
   ("ActiveSaveFileDescriptiveName".data, c.ActiveSaveFileDescriptiveName),
   ("ServerAdvertisedName".data, c.ServerAdvertisedName),
   ("ConsolePort".data, c.ConsolePort),
   ("ConsolePassword".data, c.ConsolePassword),
   ("HeartbeatInterval".data, c.HeartbeatInterval)]

/-- The optional `ExitSemaphore` entry of `dsconfig_to_props`. -/
def dsPropsExit (c : DSConfig) : Props :=
  match c.ExitSemaphore with
  | some e => [("ExitSemaphore".data, e)]
  | none => []

/-- Concrete pre-existing file content for exercising `ensure_config`:
its `PlayerProperties` entry holds an unquoted first-join name with a
single embedded double quote. -/
def cexContent : List Char :=
  "[/Script/Astro.AstroServerSettings]\nPlayerProperties=(PlayerFirstJoinName=a\"b,PlayerCategory=Pending,PlayerGuid=g,PlayerRecentJoinName=r)\n".data

/-- The `PlayerProperties` entry decoded by the first call on
`cexContent` (name kept verbatim: `a"b`). -/
def cexP1 : PlayerProps :=
  ⟨"a\"b".data, PCat.PENDING, "g".data, "r".data⟩

/-- The entry decoded by the second call: the re-quoted name `"a"b"`
loses its first quote pair under the non-greedy removal regex. -/
def cexP2 : PlayerProps :=
  ⟨"ab\"".data, PCat.PENDING, "g".data, "r".data⟩

/-- The config produced by a run of `ensure_config` on `cexContent`-like
input: dataclass defaults plus the one decoded `PlayerProperties`
entry. -/
def cexCfg (p : PlayerProps) : DSConfig :=
  { defaultDSConfig [] [] with PlayerProperties := [p] }

/-- The file such a run writes. -/
def cexFile (p : PlayerProps) : List Char :=
  fileWrite [(dsSection, dsconfig_to_props (cexCfg p))]

/-- A `PlayerProperties` string field that survives the quote-blind
comma split and the quote-stripping regexes of `from_string`: free of
commas, double quotes, single quotes and newlines. -/
def ppFieldClean (s : List Char) : Prop :=
  ¬ ',' ∈ s ∧ ¬ '\"' ∈ s ∧ ¬ '\x27' ∈ s ∧ ¬ '\n' ∈ s

/-- Cleanliness of one `PlayerProperties` entry. -/
def ppClean (p : PlayerProps) : Prop :=
  ppFieldClean p.PlayerFirstJoinName ∧ ppFieldClean p.PlayerGuid ∧
    ppFieldClean p.PlayerRecentJoinName

/-! ## Well-formedness of INI dictionaries

The reader only ever stores stripped, newline-free tokens; the writer
reproduces exactly such dictionaries.  `WFIni` captures the invariant. -/

/-- A token as stored by the reader: stripped and newline-free. -/
def cleanTok (l : List Char) : Prop := pstrip l = l ∧ '\n' ∉ l

/-- A key: a clean token without `=`. -/
def cleanKey (k : List Char) : Prop := cleanTok k ∧ '=' ∉ k

/-- A section name: a nonempty key-like token. -/
def cleanSec (s : List Char) : Prop := cleanKey s ∧ s ≠ []

/-- A stored scalar: strings are clean and are not boolean words. -/
def cleanVal : IValue → Prop
  | .vstr s => cleanTok s ∧ asBoolWord s = none
  | .vbool _ => True

/-- A stored entry: lists only arise from ≥ 2 duplicate lines. -/
def cleanEntry : VEntry → Prop
  | .scalar v => cleanVal v
  | .vlist vs => 2 ≤ vs.length ∧ ∀ v ∈ vs, cleanVal v

/-- Well-formed section body. -/
def WFProps (ps : Props) : Prop :=
  (ps.map Prod.fst).Nodup ∧ ∀ kv ∈ ps, cleanKey kv.1 ∧ cleanEntry kv.2

/-- Well-formed INI dictionary. -/
def WFIni (d : IniDict) : Prop :=
  (d.map Prod.fst).Nodup ∧ ∀ sp ∈ d, cleanSec sp.1 ∧ WFProps sp.2

/-- Cleanliness of the dynamic config fields as stored by a run of
`ensure_config` (every INI-loaded or default value is a clean entry). -/
def CleanCfg (c : DSConfig) : Prop :=
  cleanEntry c.bLoadAutoSave ∧
  cleanEntry c.bWaitForPlayersBeforeShutdown ∧
  cleanEntry c.PublicIP ∧
  cleanEntry c.ServerName ∧
  cleanEntry c.MaximumPlayerCount ∧
  cleanEntry c.OwnerName ∧
  cleanEntry c.OwnerGuid ∧
  cleanEntry c.PlayerActivityTimeout ∧
  cleanEntry c.ServerPassword ∧
  cleanEntry c.bDisableServerTravel ∧
  cleanEntry c.DenyUnlistedPlayers ∧
  cleanEntry c.VerbosePlayerProperties ∧
  cleanEntry c.AutoSaveGameInterval ∧
  cleanEntry c.BackupSaveGamesInterval ∧
  cleanEntry c.ServerGuid ∧
  cleanEntry c.ActiveSaveFileDescriptiveName ∧
  cleanEntry c.ServerAdvertisedName ∧
  cleanEntry c.ConsolePort ∧
  cleanEntry c.ConsolePassword ∧
  cleanEntry c.HeartbeatInterval ∧
  (∀ e, c.ExitSemaphore = some e → cleanEntry e)

instance (l : List Char) : Decidable (cleanTok l) := by
  unfold cleanTok
  infer_instance

instance (k : List Char) : Decidable (cleanKey k) := by
  unfold cleanKey
  infer_instance

instance (s : List Char) : Decidable (cleanSec s) := by
  unfold cleanSec
  infer_instance

instance (v : IValue) : Decidable (cleanVal v) := by
  cases v with
  | vstr s => unfold cleanVal; infer_instance
  | vbool b => unfold cleanVal; infer_instance

instance (e : VEntry) : Decidable (cleanEntry e) := by
  cases e with
  | scalar v => unfold cleanEntry; infer_instance
  | vlist vs => unfold cleanEntry; infer_instance

/-! ### String lemmas -/

theorem pstrip_sublist (l : List Char) : (pstrip l).Sublist l := by
  unfold pstrip
  exact ((List.rdropWhile_prefix _ _).sublist).trans (List.dropWhile_sublist _)

theorem mem_of_mem_pstrip {c : Char} {l : List Char} (h : c ∈ pstrip l) : c ∈ l :=
  (pstrip_sublist l).mem h

theorem pstrip_eq_self {l : List Char}
    (h1 : ∀ c, l.head? = some c → isPySpace c = false)
    (h2 : ∀ c, l.getLast? = some c → isPySpace c = false) :
    pstrip l = l := by
  unfold pstrip
  have hd : l.dropWhile isPySpace = l := by
    rw [List.dropWhile_eq_self_iff]
    intro hl
    have hh : l.head? = some (l.get ⟨0, hl⟩) := by
      cases l with
      | nil => simp at hl
      | cons a as => rfl
    have hval := h1 _ hh
    simp only [List.get_eq_getElem] at hval
    simp [hval]
  rw [hd, List.rdropWhile_eq_self_iff]
  intro hl
  have hh : l.getLast? = some (l.getLast hl) := List.getLast?_eq_getLast_of_ne_nil hl
  simp [h2 _ hh]

theorem pstrip_head {l : List Char} :
    ∀ c, (pstrip l).head? = some c → isPySpace c = false := by
  intro c hc
  unfold pstrip at hc
  obtain ⟨t, ht⟩ := List.rdropWhile_prefix isPySpace (l.dropWhile isPySpace)
  cases hp : List.rdropWhile isPySpace (l.dropWhile isPySpace) with
  | nil => rw [hp] at hc; simp at hc
  | cons a as =>
    rw [hp] at hc ht
    have hac : a = c := by simpa using hc
    subst hac
    have hlen : 0 < (l.dropWhile isPySpace).length := by
      rw [← ht]; simp
    have hnot := List.dropWhile_get_zero_not isPySpace l hlen
    have hget : (l.dropWhile isPySpace).get ⟨0, hlen⟩ = a := by
      have : l.dropWhile isPySpace = a :: (as ++ t) := by rw [← ht]; rfl
      simp [this]
    rw [hget] at hnot
    simpa using hnot

theorem pstrip_last {l : List Char} :
    ∀ c, (pstrip l).getLast? = some c → isPySpace c = false := by
  intro c hc
  unfold pstrip at hc
  have hne : List.rdropWhile isPySpace (l.dropWhile isPySpace) ≠ [] := by
    intro h; rw [h] at hc; simp at hc
  have hlast := List.rdropWhile_last_not isPySpace (l.dropWhile isPySpace) hne
  have heq : (List.rdropWhile isPySpace (l.dropWhile isPySpace)).getLast hne = c := by
    have h2 := List.getLast?_eq_getLast_of_ne_nil hne
    rw [h2] at hc
    exact Option.some_inj.mp hc
  rw [heq] at hlast
  simpa using hlast

theorem pstrip_idem (l : List Char) : pstrip (pstrip l) = pstrip l :=
  pstrip_eq_self pstrip_head pstrip_last

/-! ### splitEq lemmas -/

theorem splitEq_eq_none {l : List Char} (h : '=' ∉ l) : splitEq l = none := by
  induction l with
  | nil => rfl
  | cons c cs ih =>
    simp only [splitEq]
    rw [if_neg (fun hc => h (by rw [hc]; exact List.mem_cons_self _ _)),
      ih (fun hm => h (List.mem_cons_of_mem _ hm))]
    rfl

theorem splitEq_none_not_mem {l : List Char} (h : splitEq l = none) : '=' ∉ l := by
  induction l with
  | nil => simp
  | cons c cs ih =>
    simp only [splitEq] at h
    by_cases hc : c = '='
    · rw [if_pos hc] at h; exact Option.noConfusion h
    · rw [if_neg hc] at h
      intro hm
      rcases List.mem_cons.mp hm with h1 | h1
      · exact hc h1.symm
      · exact ih (by
          cases hsp : splitEq cs
          · rfl
          · rw [hsp] at h; simp at h) h1

theorem splitEq_spec {l a b : List Char} (h : splitEq l = some (a, b)) :
    l = a ++ '=' :: b ∧ '=' ∉ a := by
  induction l generalizing a b with
  | nil => simp [splitEq] at h
  | cons c cs ih =>
    simp only [splitEq] at h
    by_cases hc : c = '='
    · rw [if_pos hc] at h
      have ha : a = [] ∧ cs = b := by
        constructor
        · exact ((Prod.mk.injEq _ _ _ _).mp (Option.some_inj.mp h)).1.symm
        · exact ((Prod.mk.injEq _ _ _ _).mp (Option.some_inj.mp h)).2
      obtain ⟨ha1, ha2⟩ := ha
      subst ha1; subst ha2; subst hc
      exact ⟨rfl, by simp⟩
    · rw [if_neg hc] at h
      cases hsp : splitEq cs with
      | none => rw [hsp] at h; simp at h
      | some p =>
        obtain ⟨p1, p2⟩ := p
        rw [hsp] at h
        have hpair : (c :: p1, p2) = (a, b) := by simpa using h
        have h1 : c :: p1 = a := ((Prod.mk.injEq _ _ _ _).mp hpair).1
        have h2 : p2 = b := ((Prod.mk.injEq _ _ _ _).mp hpair).2
        obtain ⟨hl, hm⟩ := ih hsp
        subst h1; subst h2
        refine ⟨by rw [List.cons_append, ← hl], ?_⟩
        intro hmem
        rcases List.mem_cons.mp hmem with h3 | h3
        · exact hc h3.symm
        · exact hm h3

theorem splitEq_append {k v : List Char} (h : '=' ∉ k) :
    splitEq (k ++ '=' :: v) = some (k, v) := by
  induction k with
  | nil => simp [splitEq]
  | cons c cs ih =>
    show splitEq (c :: (cs ++ '=' :: v)) = _
    simp only [splitEq]
    rw [if_neg (fun hc => h (by rw [hc]; exact List.mem_cons_self _ _)),
      ih (fun hm => h (List.mem_cons_of_mem _ hm))]
    rfl

/-! ### Association-list lemmas -/

theorem findVal_eq_none_iff {β : Type} {l : List (List Char × β)} {k : List Char} :
    findVal l k = none ↔ k ∉ l.map Prod.fst := by
  induction l with
  | nil => simp [findVal]
  | cons kv rest ih =>
    obtain ⟨k0, v⟩ := kv
    constructor
    · intro h hmem
      rw [List.map_cons] at hmem
      rcases List.mem_cons.mp hmem with h1 | h1
      · simp only [findVal] at h
        rw [if_pos h1.symm] at h
        exact Option.noConfusion h
      · simp only [findVal] at h
        by_cases hk : k0 = k
        · rw [if_pos hk] at h; exact Option.noConfusion h
        · rw [if_neg hk] at h
          exact (ih.mp h) h1
    · intro h
      simp only [findVal]
      have hk : k0 ≠ k := by
        intro he
        apply h
        rw [List.map_cons, he]
        exact List.mem_cons_self _ _
      rw [if_neg hk]
      apply ih.mpr
      intro hm
      apply h
      rw [List.map_cons]
      exact List.mem_cons_of_mem _ hm

theorem findVal_mem {β : Type} {l : List (List Char × β)} {k : List Char} {v : β}
    (h : findVal l k = some v) : (k, v) ∈ l := by
  induction l with
  | nil => simp [findVal] at h
  | cons kv rest ih =>
    obtain ⟨k0, w⟩ := kv
    by_cases hk : k0 = k
    · subst hk
      have hv : w = v := by simpa [findVal] using h
      subst hv
      exact List.mem_cons_self _ _
    · have h2 : findVal rest k = some v := by simpa [findVal, hk] using h
      exact List.mem_cons_of_mem _ (ih h2)

theorem updAssoc_map_fst {β : Type} (l : List (List Char × β)) (k : List Char) (f : β → β) :
    (updAssoc l k f).map Prod.fst = l.map Prod.fst := by
  induction l with
  | nil => rfl
  | cons kv rest ih =>
    obtain ⟨k0, v⟩ := kv
    simp only [updAssoc]
    by_cases hk : k0 = k
    · rw [if_pos hk]; simp
    · rw [if_neg hk]; simp [ih]

theorem mem_updAssoc {β : Type} {l : List (List Char × β)} {k : List Char} {f : β → β}
    {x : List Char × β} (h : x ∈ updAssoc l k f) :
    x ∈ l ∨ ∃ v, (k, v) ∈ l ∧ x = (k, f v) := by
  induction l with
  | nil => simp [updAssoc] at h
  | cons kv rest ih =>
    obtain ⟨k0, v⟩ := kv
    simp only [updAssoc] at h
    by_cases hk : k0 = k
    · rw [if_pos hk] at h
      subst hk
      rcases List.mem_cons.mp h with h1 | h1
      · exact Or.inr ⟨v, List.mem_cons_self _ _, h1⟩
      · exact Or.inl (List.mem_cons_of_mem _ h1)
    · rw [if_neg hk] at h
      rcases List.mem_cons.mp h with h1 | h1
      · exact Or.inl (by rw [h1]; exact List.mem_cons_self _ _)
      · rcases ih h1 with h2 | ⟨w, hw1, hw2⟩
        · exact Or.inl (List.mem_cons_of_mem _ h2)
        · exact Or.inr ⟨w, List.mem_cons_of_mem _ hw1, hw2⟩

theorem findVal_append_of_not_left {β : Type} {l1 l2 : List (List Char × β)} {k : List Char}
    (h : k ∉ l1.map Prod.fst) : findVal (l1 ++ l2) k = findVal l2 k := by
  induction l1 with
  | nil => rfl
  | cons kv rest ih =>
    obtain ⟨k0, v⟩ := kv
    have hne : k0 ≠ k := by
      intro he
      apply h
      rw [List.map_cons, ← he]
      exact List.mem_cons_self _ _
    have hsub : k ∉ List.map Prod.fst rest := by
      intro hm
      apply h
      rw [List.map_cons]
      exact List.mem_cons_of_mem _ hm
    show findVal ((k0, v) :: (rest ++ l2)) k = _
    simp only [findVal]
    rw [if_neg hne, ih hsub]

theorem updAssoc_append_of_not_left {β : Type} {l1 l2 : List (List Char × β)} {k : List Char}
    (h : k ∉ l1.map Prod.fst) (f : β → β) :
    updAssoc (l1 ++ l2) k f = l1 ++ updAssoc l2 k f := by
  induction l1 with
  | nil => rfl
  | cons kv rest ih =>
    obtain ⟨k0, v⟩ := kv
    have hne : k0 ≠ k := by
      intro he
      apply h
      rw [List.map_cons, ← he]
      exact List.mem_cons_self _ _
    have hsub : k ∉ List.map Prod.fst rest := by
      intro hm
      apply h
      rw [List.map_cons]
      exact List.mem_cons_of_mem _ hm
    show updAssoc ((k0, v) :: (rest ++ l2)) k f = _
    simp only [updAssoc]
    rw [if_neg hne, ih hsub]
    rfl

/-! ### Preservation of well-formedness by the reader -/

theorem setSec_WF {d : IniDict} {s : List Char} (hd : WFIni d) (hs : cleanSec s) :
    WFIni (setSec d s) := by
  obtain ⟨hnd, hmem⟩ := hd
  unfold setSec
  by_cases hf : (findVal d s).isSome
  · rw [if_pos hf]
    refine ⟨by rw [updAssoc_map_fst]; exact hnd, ?_⟩
    intro sp hsp
    rcases mem_updAssoc hsp with h1 | ⟨v, hv1, hv2⟩
    · exact hmem sp h1
    · rw [hv2]
      exact ⟨hs, by constructor <;> simp [WFProps]⟩
  · rw [if_neg hf]
    have hnone : findVal d s = none := by
      cases hfd : findVal d s
      · rfl
      · rw [hfd] at hf; simp at hf
    have hnotin : s ∉ d.map Prod.fst := findVal_eq_none_iff.mp hnone
    constructor
    · rw [List.map_append]
      simp only [List.map_cons, List.map_nil]
      exact List.Nodup.append hnd (by simp) (by
        intro x hx hy
        simp at hy
        rw [hy] at hx
        exact hnotin hx)
    · intro sp hsp
      rcases List.mem_append.mp hsp with h1 | h1
      · exact hmem sp h1
      · have : sp = (s, []) := by simpa using h1
        rw [this]
        exact ⟨hs, by constructor <;> simp [WFProps]⟩

theorem addVal_WF {ps : Props} {k : List Char} {v : IValue}
    (hps : WFProps ps) (hk : cleanKey k) (hv : cleanVal v) :
    WFProps (addVal ps k v) := by
  obtain ⟨hnd, hmem⟩ := hps
  unfold addVal
  cases hf : findVal ps k with
  | none =>
    have hnotin : k ∉ ps.map Prod.fst := findVal_eq_none_iff.mp hf
    constructor
    · rw [List.map_append]
      simp only [List.map_cons, List.map_nil]
      exact List.Nodup.append hnd (by simp) (by
        intro x hx hy
        simp at hy
        rw [hy] at hx
        exact hnotin hx)
    · intro kv hkv
      rcases List.mem_append.mp hkv with h1 | h1
      · exact hmem kv h1
      · have : kv = (k, VEntry.scalar v) := by simpa using h1
        rw [this]
        exact ⟨hk, hv⟩
  | some e =>
    cases e with
    | scalar w =>
      constructor
      · rw [updAssoc_map_fst]; exact hnd
      · intro kv hkv
        rcases mem_updAssoc hkv with h1 | ⟨u, hu1, hu2⟩
        · exact hmem kv h1
        · rw [hu2]
          refine ⟨hk, ?_⟩
          have hw := hmem _ (findVal_mem hf)
          exact ⟨by simp, by
            intro x hx
            rcases List.mem_cons.mp hx with h2 | h2
            · rw [h2]; exact hw.2
            · rw [List.mem_singleton.mp h2]; exact hv⟩
    | vlist ws =>
      constructor
      · rw [updAssoc_map_fst]; exact hnd
      · intro kv hkv
        rcases mem_updAssoc hkv with h1 | ⟨u, hu1, hu2⟩
        · exact hmem kv h1
        · rw [hu2]
          refine ⟨hk, ?_⟩
          have hw := hmem _ (findVal_mem hf)
          obtain ⟨hlen, hels⟩ := hw.2
          refine ⟨by simp; omega, ?_⟩
          intro x hx
          rcases List.mem_append.mp hx with h2 | h2
          · exact hels x h2
          · rw [List.mem_singleton.mp h2]; exact hv

theorem addProp_WF {d : IniDict} {s k : List Char} {v : IValue}
    (hd : WFIni d) (hk : cleanKey k) (hv : cleanVal v) :
    WFIni (addProp d s k v) := by
  obtain ⟨hnd, hmem⟩ := hd
  unfold addProp
  constructor
  · rw [updAssoc_map_fst]; exact hnd
  · intro sp hsp
    rcases mem_updAssoc hsp with h1 | ⟨ps, hp1, hp2⟩
    · exact hmem sp h1
    · rw [hp2]
      exact ⟨(hmem _ hp1).1, addVal_WF (hmem _ hp1).2 hk hv⟩

theorem secName_clean {line : List Char} (hnl : '\n' ∉ line)
    (hsp : splitEq line = none) (hlen : 0 < (secName line).length) :
    cleanSec (secName line) := by
  refine ⟨⟨⟨pstrip_idem _, ?_⟩, ?_⟩, List.length_pos.mp hlen⟩
  · intro hm
    exact hnl ((((pstrip_sublist _).trans
      ((List.dropLast_sublist _).trans (List.drop_sublist _ _))).mem) hm)
  · intro hm
    have hin : '=' ∈ line := (((pstrip_sublist _).trans
      ((List.dropLast_sublist _).trans (List.drop_sublist _ _))).mem) hm
    exact splitEq_none_not_mem hsp hin

theorem toIValue_clean {v0 : List Char} (hnl : '\n' ∉ v0) :
    cleanVal (toIValue (pstrip v0)) := by
  unfold toIValue
  cases hbw : asBoolWord (pstrip v0) with
  | some b => exact trivial
  | none =>
    exact ⟨⟨pstrip_idem _, fun hm => hnl (mem_of_mem_pstrip hm)⟩, hbw⟩

theorem lineStep_WF {st : RState} {rawLine : List Char}
    (hst : WFIni st.dict) (hnl : '\n' ∉ rawLine) :
    WFIni (lineStep st rawLine).dict := by
  unfold lineStep lineStepStripped
  have hnl2 : '\n' ∉ pstrip rawLine := fun hm => hnl (mem_of_mem_pstrip hm)
  cases hsp : splitEq (pstrip rawLine) with
  | none =>
    by_cases hhd : 2 ≤ (pstrip rawLine).length ∧ (pstrip rawLine).head? = some '['
        ∧ (pstrip rawLine).getLast? = some ']'
    · rw [if_pos hhd]
      by_cases hlen : 0 < (secName (pstrip rawLine)).length
      · rw [if_pos hlen]
        exact setSec_WF hst (secName_clean hnl2 hsp hlen)
      · rw [if_neg hlen]; exact hst
    · rw [if_neg hhd]; exact hst
  | some kv =>
    obtain ⟨k0, v0⟩ := kv
    cases hcur : st.cur with
    | none => exact hst
    | some sec =>
      obtain ⟨hline, hknoeq⟩ := splitEq_spec hsp
      have hk0 : '\n' ∉ k0 := fun hm => hnl2 (by rw [hline]; simp [hm])
      have hv0 : '\n' ∉ v0 := fun hm => hnl2 (by rw [hline]; simp [hm])
      exact addProp_WF hst ⟨⟨pstrip_idem _, fun hm => hk0 (mem_of_mem_pstrip hm)⟩,
        fun hm => hknoeq (mem_of_mem_pstrip hm)⟩ (toIValue_clean hv0)

theorem foldl_lineStep_WF (lines : List (List Char)) :
    ∀ (st : RState), WFIni st.dict → (∀ l ∈ lines, '\n' ∉ l) →
    WFIni ((lines.foldl lineStep st).dict) := by
  induction lines with
  | nil => intro st h _; exact h
  | cons l rest ih =>
    intro st h hnl
    simp only [List.foldl_cons]
    exact ih _ (lineStep_WF h (hnl l (List.mem_cons_self _ _)))
      (fun x hx => hnl x (List.mem_cons_of_mem _ hx))

theorem splitNl_no_nl (content : List Char) : ∀ l ∈ splitNl content, '\n' ∉ l := by
  induction content with
  | nil =>
    intro l hl
    have : l = [] := by simpa [splitNl] using hl
    rw [this]; simp
  | cons c cs ih =>
    intro l hl
    simp only [splitNl] at hl
    by_cases hc : c = '\n'
    · rw [if_pos hc] at hl
      rcases List.mem_cons.mp hl with h1 | h1
      · rw [h1]; simp
      · exact ih l h1
    · rw [if_neg hc] at hl
      cases hsp : splitNl cs with
      | nil =>
        rw [hsp] at hl
        have : l = [c] := by simpa using hl
        rw [this]
        intro hm
        exact hc (List.mem_singleton.mp hm).symm
      | cons m ms =>
        rw [hsp] at hl
        rcases List.mem_cons.mp hl with h1 | h1
        · rw [h1]
          intro hm
          rcases List.mem_cons.mp hm with h2 | h2
          · exact hc h2.symm
          · exact ih m (by rw [hsp]; exact List.mem_cons_self _ _) h2
        · exact ih l (by rw [hsp]; exact List.mem_cons_of_mem _ h1)

/-- Well-formedness of every dictionary produced by `read_file`. -/
theorem WFIni_fileRead (f : List Char) : WFIni (fileRead f) := by
  unfold fileRead readLines
  exact foldl_lineStep_WF _ _ ⟨List.nodup_nil, by simp⟩ (splitNl_no_nl f)

/-! ### Reading back a written dictionary -/

theorem splitNl_append_nl {l : List Char} (hl : '\n' ∉ l) (rest : List Char) :
    splitNl (l ++ '\n' :: rest) = l :: splitNl rest := by
  induction l with
  | nil => simp [splitNl]
  | cons c cs ih =>
    show splitNl (c :: (cs ++ '\n' :: rest)) = _
    simp only [splitNl]
    rw [if_neg (fun hc => hl (by rw [hc]; exact List.mem_cons_self _ _)),
      ih (fun hm => hl (List.mem_cons_of_mem _ hm))]

theorem splitNl_flat {ls : List (List Char)} (h : ∀ l ∈ ls, '\n' ∉ l) :
    splitNl (ls.flatMap (fun l => l ++ ['\n'])) = ls ++ [[]] := by
  induction ls with
  | nil => rfl
  | cons l rest ih =>
    rw [List.flatMap_cons, List.append_assoc]
    have : ['\n'] ++ rest.flatMap (fun l => l ++ ['\n'])
        = '\n' :: rest.flatMap (fun l => l ++ ['\n']) := rfl
    rw [this, splitNl_append_nl (h l (List.mem_cons_self _ _)),
      ih (fun x hx => h x (List.mem_cons_of_mem _ hx))]
    rfl

theorem writeIni_eq_flatMap (d : IniDict) : writeIni d = d.flatMap sectionLines := rfl

theorem lineStep_blank (st : RState) : lineStep st [] = st := rfl

theorem lineStep_header (st : RState) {s : List Char} (hs : cleanSec s)
    (hnone : findVal st.dict s = none) :
    lineStep st ('[' :: s ++ [']']) = { cur := some s, dict := st.dict ++ [(s, [])] } := by
  obtain ⟨⟨⟨hstrip, hnl⟩, hneq⟩, hne⟩ := hs
  have hps : pstrip ('[' :: s ++ [']']) = '[' :: s ++ [']'] := by
    apply pstrip_eq_self
    · intro c hc
      have hcc : '[' = c := by simpa using hc
      rw [← hcc]; rfl
    · intro c hc
      have : ('[' :: s) ++ [']'] = '[' :: s ++ [']'] := rfl
      rw [← this, List.getLast?_concat] at hc
      have hcc : ']' = c := by simpa using hc
      rw [← hcc]; rfl
  have hsplit : splitEq ('[' :: s ++ [']']) = none := by
    apply splitEq_eq_none
    intro hm
    rcases List.mem_cons.mp hm with h1 | h1
    · exact absurd h1 (by decide)
    · rcases List.mem_append.mp h1 with h2 | h2
      · exact hneq h2
      · exact absurd (List.mem_singleton.mp h2) (by decide)
  have hsec : secName ('[' :: s ++ [']']) = s := by
    unfold secName
    have h1 : ('[' :: s ++ [']']).drop 1 = s ++ [']'] := rfl
    rw [h1, List.dropLast_concat, hstrip]
  unfold lineStep lineStepStripped
  rw [hps, hsplit]
  have hcond : 2 ≤ ('[' :: s ++ [']']).length ∧ ('[' :: s ++ [']']).head? = some '['
      ∧ ('[' :: s ++ [']']).getLast? = some ']' := by
    refine ⟨by simp, rfl, ?_⟩
    have : ('[' :: s) ++ [']'] = '[' :: s ++ [']'] := rfl
    rw [← this, List.getLast?_concat]
  rw [if_pos hcond, hsec]
  rw [if_pos (List.length_pos.mpr hne)]
  unfold setSec
  rw [hnone]
  rfl

theorem cleanTok_head {l : List Char} (h : pstrip l = l) :
    ∀ c, l.head? = some c → isPySpace c = false := by
  intro c hc
  have h2 : (pstrip l).head? = some c := by rw [h]; exact hc
  exact pstrip_head c h2

theorem cleanTok_last {l : List Char} (h : pstrip l = l) :
    ∀ c, l.getLast? = some c → isPySpace c = false := by
  intro c hc
  have h2 : (pstrip l).getLast? = some c := by rw [h]; exact hc
  exact pstrip_last c h2

theorem propLine_pstrip {k rv : List Char} (hk : pstrip k = k) (hv : pstrip rv = rv) :
    pstrip (k ++ '=' :: rv) = k ++ '=' :: rv := by
  apply pstrip_eq_self
  · intro c hc
    cases k with
    | nil =>
      have : '=' = c := by simpa using hc
      rw [← this]; rfl
    | cons a as =>
      have hca : a = c := by simpa using hc
      exact hca ▸ cleanTok_head hk a rfl
  · intro c hc
    cases hrv : rv with
    | nil =>
      rw [hrv] at hc
      have h2 : (k ++ ['=']).getLast? = some '=' := List.getLast?_concat _
      rw [h2] at hc
      have : '=' = c := by simpa using hc
      rw [← this]; rfl
    | cons b bs =>
      rw [hrv] at hc hv
      rw [List.getLast?_append_of_ne_nil _ (by simp)] at hc
      rw [List.getLast?_cons_cons] at hc
      exact cleanTok_last hv c hc

theorem renderVal_pstrip {v : IValue} (hv : cleanVal v) :
    pstrip (renderVal v) = renderVal v := by
  cases v with
  | vstr s => exact hv.1.1
  | vbool b => cases b <;> decide

theorem toIValue_renderVal {v : IValue} (hv : cleanVal v) :
    toIValue (renderVal v) = v := by
  cases v with
  | vstr s =>
    have hs : renderVal (IValue.vstr s) = s := rfl
    unfold toIValue
    rw [hs, hv.2]
  | vbool b => cases b <;> decide

theorem lineStep_prop {st : RState} {sec k : List Char} {v : IValue}
    (hsec : st.cur = some sec) (hk : cleanKey k) (hv : cleanVal v) :
    lineStep st (k ++ '=' :: renderVal v)
      = { st with dict := addProp st.dict sec k v } := by
  unfold lineStep lineStepStripped
  rw [propLine_pstrip hk.1.1 (renderVal_pstrip hv), splitEq_append hk.2, hsec]
  simp only [hk.1.1, renderVal_pstrip hv, toIValue_renderVal hv]

/-! ### Rebuilding entries from duplicate lines -/

theorem addVal_absent {ps : Props} {k : List Char} (v : IValue)
    (h : findVal ps k = none) : addVal ps k v = ps ++ [(k, .scalar v)] := by
  unfold addVal
  rw [h]

theorem findVal_append_self {acc : Props} {k : List Char} {e : VEntry}
    (h : findVal acc k = none) : findVal (acc ++ [(k, e)]) k = some e := by
  rw [findVal_append_of_not_left (findVal_eq_none_iff.mp h)]
  simp [findVal]

theorem updAssoc_append_self {acc : Props} {k : List Char} {e : VEntry}
    (h : findVal acc k = none) (f : VEntry → VEntry) :
    updAssoc (acc ++ [(k, e)]) k f = acc ++ [(k, f e)] := by
  rw [updAssoc_append_of_not_left (findVal_eq_none_iff.mp h)]
  simp [updAssoc]

theorem addVal_scalar_last {acc : Props} {k : List Char} {w : IValue} (v : IValue)
    (h : findVal acc k = none) :
    addVal (acc ++ [(k, .scalar w)]) k v = acc ++ [(k, .vlist [w, v])] := by
  simp only [addVal, findVal_append_self h, updAssoc_append_self h]

theorem addVal_vlist_last {acc : Props} {k : List Char} {ws : List IValue} (v : IValue)
    (h : findVal acc k = none) :
    addVal (acc ++ [(k, .vlist ws)]) k v = acc ++ [(k, .vlist (ws ++ [v]))] := by
  simp only [addVal, findVal_append_self h, updAssoc_append_self h]

theorem addProp_append_last {D : IniDict} {s : List Char} {ps : Props}
    (h : findVal D s = none) (k : List Char) (v : IValue) :
    addProp (D ++ [(s, ps)]) s k v = D ++ [(s, addVal ps k v)] := by
  unfold addProp
  rw [updAssoc_append_of_not_left (findVal_eq_none_iff.mp h)]
  simp [updAssoc]

theorem fold_vlist_rest {D : IniDict} {s : List Char} {acc : Props} {k : List Char}
    (hsD : findVal D s = none) (hacc : findVal acc k = none) (hk : cleanKey k) :
    ∀ (rest ws : List IValue), (∀ v ∈ rest, cleanVal v) →
    List.foldl lineStep ⟨some s, D ++ [(s, acc ++ [(k, .vlist ws)])]⟩
        (rest.map (fun v => k ++ '=' :: renderVal v))
      = ⟨some s, D ++ [(s, acc ++ [(k, .vlist (ws ++ rest))])]⟩ := by
  intro rest
  induction rest with
  | nil => intro ws _; simp
  | cons r rs ih =>
    intro ws hclean
    simp only [List.map_cons, List.foldl_cons]
    rw [lineStep_prop rfl hk (hclean r (List.mem_cons_self _ _))]
    have h1 : addProp (D ++ [(s, acc ++ [(k, VEntry.vlist ws)])]) s k r
        = D ++ [(s, acc ++ [(k, VEntry.vlist (ws ++ [r]))])] := by
      rw [addProp_append_last hsD, addVal_vlist_last r hacc]
    simp only [h1]
    rw [ih (ws ++ [r]) (fun v hv => hclean v (List.mem_cons_of_mem _ hv))]
    simp [List.append_assoc]

theorem fold_entry {D : IniDict} {s : List Char} {acc : Props} {k : List Char} {e : VEntry}
    (hsD : findVal D s = none) (hacc : findVal acc k = none)
    (hk : cleanKey k) (he : cleanEntry e) :
    List.foldl lineStep ⟨some s, D ++ [(s, acc)]⟩ (renderProp k e)
      = ⟨some s, D ++ [(s, acc ++ [(k, e)])]⟩ := by
  cases e with
  | scalar v =>
    simp only [renderProp, List.foldl_cons, List.foldl_nil]
    rw [lineStep_prop rfl hk he]
    have h1 : addProp (D ++ [(s, acc)]) s k v = D ++ [(s, acc ++ [(k, VEntry.scalar v)])] := by
      rw [addProp_append_last hsD, addVal_absent v hacc]
    simp only [h1]
  | vlist vs =>
    obtain ⟨hlen, hels⟩ := he
    match vs, hlen with
    | v0 :: v1 :: rest, _ =>
      simp only [renderProp, List.map_cons, List.foldl_cons]
      rw [lineStep_prop rfl hk (hels v0 (by simp))]
      have h1 : addProp (D ++ [(s, acc)]) s k v0 = D ++ [(s, acc ++ [(k, VEntry.scalar v0)])] := by
        rw [addProp_append_last hsD, addVal_absent v0 hacc]
      simp only [h1]
      rw [lineStep_prop rfl hk (hels v1 (by simp))]
      have h2 : addProp (D ++ [(s, acc ++ [(k, VEntry.scalar v0)])]) s k v1
          = D ++ [(s, acc ++ [(k, VEntry.vlist [v0, v1])])] := by
        rw [addProp_append_last hsD, addVal_scalar_last v1 hacc]
      simp only [h2]
      rw [fold_vlist_rest hsD hacc hk rest [v0, v1] (fun v hv => hels v (by simp [hv]))]
      rfl

theorem fold_props {D : IniDict} {s : List Char} (hsD : findVal D s = none) :
    ∀ (ps acc : Props), ((acc ++ ps).map Prod.fst).Nodup →
    (∀ kv ∈ ps, cleanKey kv.1 ∧ cleanEntry kv.2) →
    List.foldl lineStep ⟨some s, D ++ [(s, acc)]⟩
        (ps.flatMap (fun kv => renderProp kv.1 kv.2))
      = ⟨some s, D ++ [(s, acc ++ ps)]⟩ := by
  intro ps
  induction ps with
  | nil => intro acc _ _; simp
  | cons kv rest ih =>
    intro acc hnd hclean
    obtain ⟨k, e⟩ := kv
    rw [List.flatMap_cons, List.foldl_append]
    have hacc : findVal acc k = none := by
      apply findVal_eq_none_iff.mpr
      intro hm
      have hnd2 : (acc.map Prod.fst ++ (k :: rest.map Prod.fst)).Nodup := by
        simpa using hnd
      exact (List.disjoint_of_nodup_append hnd2) hm (List.mem_cons_self _ _)
    rw [fold_entry hsD hacc (hclean (k, e) (List.mem_cons_self _ _)).1
      (hclean (k, e) (List.mem_cons_self _ _)).2]
    rw [ih (acc ++ [(k, e)]) (by rw [List.append_assoc]; exact hnd)
      (fun kv2 h2 => hclean kv2 (List.mem_cons_of_mem _ h2))]
    rw [List.append_assoc]
    rfl

theorem fold_section {D : IniDict} {s : List Char} {ps : Props} {cur : Option (List Char)}
    (hs : cleanSec s) (hps : WFProps ps) (hsD : findVal D s = none) :
    List.foldl lineStep ⟨cur, D⟩ (sectionLines (s, ps)) = ⟨some s, D ++ [(s, ps)]⟩ := by
  unfold sectionLines
  rw [List.foldl_cons]
  have hh : lineStep ⟨cur, D⟩ ('[' :: s ++ [']']) = ⟨some s, D ++ [(s, [])]⟩ :=
    lineStep_header ⟨cur, D⟩ hs hsD
  rw [hh, List.foldl_append]
  rw [fold_props hsD ps [] (by simpa using hps.1) hps.2]
  rfl

theorem fold_sections :
    ∀ (ds : IniDict) (cur : Option (List Char)) (D : IniDict),
    ((D ++ ds).map Prod.fst).Nodup →
    (∀ sp ∈ ds, cleanSec sp.1 ∧ WFProps sp.2) →
    ∃ c2, List.foldl lineStep ⟨cur, D⟩ (writeIni ds) = ⟨c2, D ++ ds⟩ := by
  intro ds
  induction ds with
  | nil => intro cur D _ _; exact ⟨cur, by simp [writeIni]⟩
  | cons sp rest ih =>
    intro cur D hnd hwf
    obtain ⟨s, ps⟩ := sp
    rw [writeIni_eq_flatMap, List.flatMap_cons, List.foldl_append]
    have hsD : findVal D s = none := by
      apply findVal_eq_none_iff.mpr
      intro hm
      have hnd2 : (D.map Prod.fst ++ (s :: rest.map Prod.fst)).Nodup := by
        simpa using hnd
      exact (List.disjoint_of_nodup_append hnd2) hm (List.mem_cons_self _ _)
    rw [fold_section (hwf _ (List.mem_cons_self _ _)).1
      (hwf _ (List.mem_cons_self _ _)).2 hsD]
    obtain ⟨c2, hc2⟩ := ih (some s) (D ++ [(s, ps)])
      (by rw [List.append_assoc]; exact hnd)
      (fun x hx => hwf x (List.mem_cons_of_mem _ hx))
    refine ⟨c2, ?_⟩
    rw [writeIni_eq_flatMap] at hc2
    rw [hc2, List.append_assoc]
    rfl

theorem renderVal_no_nl {v : IValue} (hv : cleanVal v) : '\n' ∉ renderVal v := by
  cases v with
  | vstr s => exact hv.1.2
  | vbool b => cases b <;> decide

theorem writeIni_no_nl {d : IniDict} (h : WFIni d) : ∀ l ∈ writeIni d, '\n' ∉ l := by
  intro l hl
  rw [writeIni_eq_flatMap, List.mem_flatMap] at hl
  obtain ⟨sp, hsp, hline⟩ := hl
  obtain ⟨⟨⟨⟨_, hsnl⟩, _⟩, _⟩, hwfp⟩ := h.2 sp hsp
  unfold sectionLines at hline
  rcases List.mem_cons.mp hline with h1 | h1
  · rw [h1]
    intro hm
    rcases List.mem_cons.mp hm with h2 | h2
    · exact absurd h2 (by decide)
    · rcases List.mem_append.mp h2 with h3 | h3
      · exact hsnl h3
      · exact absurd (List.mem_singleton.mp h3) (by decide)
  · rcases List.mem_append.mp h1 with h2 | h2
    · rw [List.mem_flatMap] at h2
      obtain ⟨kv, hkv, hl2⟩ := h2
      obtain ⟨⟨⟨_, hknl⟩, _⟩, hce⟩ := hwfp.2 kv hkv
      have hval : ∃ v, cleanVal v ∧ l = kv.1 ++ '=' :: renderVal v := by
        cases he : kv.2 with
        | scalar v =>
          rw [he] at hl2
          have : l = kv.1 ++ '=' :: renderVal v := by simpa [renderProp] using hl2
          exact ⟨v, by rw [he] at hce; exact hce, this⟩
        | vlist vs =>
          rw [he] at hl2
          simp only [renderProp, List.mem_map] at hl2
          obtain ⟨v, hv1, hv2⟩ := hl2
          rw [he] at hce
          exact ⟨v, hce.2 v hv1, hv2.symm⟩
      obtain ⟨v, hcv, hlv⟩ := hval
      rw [hlv]
      intro hm
      rcases List.mem_append.mp hm with h3 | h3
      · exact hknl h3
      · rcases List.mem_cons.mp h3 with h4 | h4
        · exact absurd h4 (by decide)
        · exact renderVal_no_nl hcv h4
    · have : l = [] := List.mem_singleton.mp h2
      rw [this]; simp

/-- Reading back exactly reproduces any well-formed written dictionary. -/
theorem fileRead_fileWrite {d : IniDict} (h : WFIni d) : fileRead (fileWrite d) = d := by
  unfold fileWrite fileRead
  rw [splitNl_flat (writeIni_no_nl h)]
  unfold readLines
  rw [List.foldl_append]
  obtain ⟨c2, hc2⟩ := fold_sections d none [] (by simpa using h.1) h.2
  rw [hc2]
  rfl

/-! ## Claim theorems -/

/-- C8: INI round-trip stability: for any input file content `f`,
`write(read(f))` and `write(read(write(read(f))))` are equal file
contents (here exactly equal, hence equal modulo blank-line
normalization). -/
theorem C8_ini_roundtrip (f : List Char) :
    fileWrite (fileRead (fileWrite (fileRead f))) = fileWrite (fileRead f) := by
  rw [fileRead_fileWrite (WFIni_fileRead f)]

/-- C4 counterexample: on the empty accumulated byte string the parse
step returns Python `None`, not the empty byte string the claim
demands (the `if raw_data != b""` body is skipped and the function
falls through without a return). -/
theorem C4_counterexample :
    parseRawData (fun _ => (none : Option Unit)) (some []) = ParseOut.pynone ∧
    parseRawData (fun _ => (none : Option Unit)) (some []) ≠ ParseOut.bytes [] :=
  ⟨rfl, by decide⟩

/-- C4 (amended): when the accumulated response is the empty byte
string, `parseRawData` returns Python `None`: the JSON parser is never
consulted (no parse failure is signalled) and no other bytes value is
returned. -/
theorem C4_empty_response (J : Type) (jsonParse : List Nat → Option J) :
    parseRawData jsonParse (some []) = ParseOut.pynone := rfl

/-- C5 counterexample: a failed read (receive exception) leaves
`connected = true` and closes nothing, contradicting the claim that
every connection-loss condition flips the flag and discards the
socket. -/
theorem C5_counterexample :
    (sendreceive ⟨true, true, 0⟩ [72] SendRes.ok RecvRes.err
      (fun _ => (none : Option Unit)) true).1.connected = true ∧
    (sendreceive ⟨true, true, 0⟩ [72] SendRes.ok RecvRes.err
      (fun _ => (none : Option Unit)) true).1.closeCount = 0 ∧
    (sendreceive ⟨true, true, 0⟩ [72] SendRes.ok RecvRes.err
      (fun _ => (none : Option Unit)) true).2 = RconRet.pynone :=
  ⟨rfl, rfl, rfl⟩

/-- C5 (amended): a send error makes `_sendreceive` disconnect before
returning — `connected = false`, the socket is discarded and closed
exactly once; an EOF/empty or failed read instead returns `None`
leaving the connection state untouched. -/
theorem C5_send_error_disconnects (J : Type) (st : RconState) (data : List Nat)
    (recvRes : RecvRes) (jsonParse : List Nat → Option J) (recvdata : Bool)
    (hconn : st.connected = true) (hsock : st.sockOpen = true) (hdata : data ≠ []) :
    ((sendreceive st data SendRes.err recvRes jsonParse recvdata).1.connected = false ∧
     (sendreceive st data SendRes.err recvRes jsonParse recvdata).1.sockOpen = false ∧
     (sendreceive st data SendRes.err recvRes jsonParse recvdata).1.closeCount
       = st.closeCount + 1 ∧
     (sendreceive st data SendRes.err recvRes jsonParse recvdata).2 = RconRet.pynone)
    ∧ sendreceive st data SendRes.ok RecvRes.err jsonParse true = (st, RconRet.pynone)
    ∧ sendreceive st data SendRes.ok (RecvRes.data []) jsonParse true
        = (st, RconRet.pynone) := by
  refine ⟨⟨?_, ?_, ?_, ?_⟩, ?_, ?_⟩ <;>
    simp [sendreceive, disconnect, parseRawData, ofParse, hconn, hsock, hdata]

/-- Witness for the amended C5 theorem at a concrete client state. -/
theorem C5_send_error_disconnects_witness :
    (((sendreceive ⟨true, true, 2⟩ [72] SendRes.err RecvRes.err
        (fun _ => (none : Option Unit)) true).1.connected = false ∧
      (sendreceive ⟨true, true, 2⟩ [72] SendRes.err RecvRes.err
        (fun _ => (none : Option Unit)) true).1.sockOpen = false ∧
      (sendreceive ⟨true, true, 2⟩ [72] SendRes.err RecvRes.err
        (fun _ => (none : Option Unit)) true).1.closeCount = 2 + 1 ∧
      (sendreceive ⟨true, true, 2⟩ [72] SendRes.err RecvRes.err
        (fun _ => (none : Option Unit)) true).2 = RconRet.pynone)
     ∧ sendreceive ⟨true, true, 2⟩ [72] SendRes.ok RecvRes.err
         (fun _ => (none : Option Unit)) true = (⟨true, true, 2⟩, RconRet.pynone)
     ∧ sendreceive ⟨true, true, 2⟩ [72] SendRes.ok (RecvRes.data [])
         (fun _ => (none : Option Unit)) true = (⟨true, true, 2⟩, RconRet.pynone)) :=
  C5_send_error_disconnects Unit ⟨true, true, 2⟩ [72] RecvRes.err
    (fun _ => (none : Option Unit)) true rfl rfl (by decide)

/-- C9 counterexample: with a connected RUNNING supervisor, a dict
statistics reply followed by a non-dict player-list reply makes
`update_server_info` return `False` while the statistics snapshot has
already been replaced — the stored triple is neither fully fresh nor
fully untouched. -/
theorem C9_counterexample :
    (update_server_info ⟨some ⟨false⟩, none, none, true, ServerStatus.RUNNING⟩
      (some ⟨true⟩) none none).2 = false ∧
    (update_server_info ⟨some ⟨false⟩, none, none, true, ServerStatus.RUNNING⟩
      (some ⟨true⟩) none none).1.curr_server_stat = some ⟨true⟩ ∧
    some (ServerStat.mk true) ≠ some (ServerStat.mk false) :=
  ⟨rfl, rfl, by decide⟩

/-- C9 (amended): on success all three snapshots come from this call's
three back-to-back queries; on failure the game list is never replaced
and what has been replaced is exactly a prefix of the query sequence
(statistics, then player list), each with that query's reply. -/
theorem C9_snapshot_prefix (st : SrvState) (r1 : Option ServerStat)
    (r2 : Option (List PlayerInfo)) (r3 : Option GameList) :
    ((update_server_info st r1 r2 r3).2 = true →
      (update_server_info st r1 r2 r3).1.curr_server_stat = r1 ∧
      (update_server_info st r1 r2 r3).1.curr_player_list = r2 ∧
      (update_server_info st r1 r2 r3).1.curr_game_list = r3)
    ∧ ((update_server_info st r1 r2 r3).2 = false →
      (update_server_info st r1 r2 r3).1.curr_game_list = st.curr_game_list ∧
      (((update_server_info st r1 r2 r3).1.curr_server_stat = st.curr_server_stat ∧
        (update_server_info st r1 r2 r3).1.curr_player_list = st.curr_player_list) ∨
       (r2 = none ∧ (update_server_info st r1 r2 r3).1.curr_server_stat = r1 ∧
        (update_server_info st r1 r2 r3).1.curr_player_list = st.curr_player_list) ∨
       (r3 = none ∧ (update_server_info st r1 r2 r3).1.curr_server_stat = r1 ∧
        (update_server_info st r1 r2 r3).1.curr_player_list = r2))) := by
  by_cases hg : ¬ st.rcon_connected ∨ st.status ≠ ServerStatus.RUNNING
  · have hres : update_server_info st r1 r2 r3 = (st, false) := by
      unfold update_server_info
      rw [if_pos hg]
    rw [hres]
    exact ⟨fun h => absurd h (by simp), fun _ => ⟨rfl, Or.inl ⟨rfl, rfl⟩⟩⟩
  · cases r1 with
    | none =>
      have hres : update_server_info st none r2 r3 = (st, false) := by
        unfold update_server_info
        rw [if_neg hg]
      rw [hres]
      exact ⟨fun h => absurd h (by simp), fun _ => ⟨rfl, Or.inl ⟨rfl, rfl⟩⟩⟩
    | some s1 =>
      cases r2 with
      | none =>
        have hres : update_server_info st (some s1) none r3
            = ({ st with curr_server_stat := some s1 }, false) := by
          unfold update_server_info
          rw [if_neg hg]
        rw [hres]
        exact ⟨fun h => absurd h (by simp),
          fun _ => ⟨rfl, Or.inr (Or.inl ⟨rfl, rfl, rfl⟩)⟩⟩
      | some p2 =>
        cases r3 with
        | none =>
          have hres : update_server_info st (some s1) (some p2) none
              = ({ st with
                    curr_server_stat := some s1
                    curr_player_list := some p2 }, false) := by
            unfold update_server_info
            rw [if_neg hg]
          rw [hres]
          exact ⟨fun h => absurd h (by simp),
            fun _ => ⟨rfl, Or.inr (Or.inr ⟨rfl, rfl, rfl⟩)⟩⟩
        | some g3 =>
          have hres : update_server_info st (some s1) (some p2) (some g3)
              = ({ st with
                    curr_server_stat := some s1
                    curr_player_list := some p2
                    curr_game_list := some g3 }, true) := by
            unfold update_server_info
            rw [if_neg hg]
          rw [hres]
          exact ⟨fun _ => ⟨rfl, rfl, rfl⟩, fun h => absurd h (by simp)⟩

/-- Witness for the amended C9 theorem: a fully successful refresh. -/
theorem C9_snapshot_prefix_witness :
    ((update_server_info ⟨none, none, none, true, ServerStatus.RUNNING⟩
        (some ⟨false⟩) (some []) (some ⟨none⟩)).2 = true →
      (update_server_info ⟨none, none, none, true, ServerStatus.RUNNING⟩
        (some ⟨false⟩) (some []) (some ⟨none⟩)).1.curr_server_stat = some ⟨false⟩ ∧
      (update_server_info ⟨none, none, none, true, ServerStatus.RUNNING⟩
        (some ⟨false⟩) (some []) (some ⟨none⟩)).1.curr_player_list = some [] ∧
      (update_server_info ⟨none, none, none, true, ServerStatus.RUNNING⟩
        (some ⟨false⟩) (some []) (some ⟨none⟩)).1.curr_game_list = some ⟨none⟩)
    ∧ ((update_server_info ⟨none, none, none, true, ServerStatus.RUNNING⟩
        (some ⟨false⟩) (some []) (some ⟨none⟩)).2 = false →
      (update_server_info ⟨none, none, none, true, ServerStatus.RUNNING⟩
        (some ⟨false⟩) (some []) (some ⟨none⟩)).1.curr_game_list = none ∧
      (((update_server_info ⟨none, none, none, true, ServerStatus.RUNNING⟩
          (some ⟨false⟩) (some []) (some ⟨none⟩)).1.curr_server_stat = none ∧
        (update_server_info ⟨none, none, none, true, ServerStatus.RUNNING⟩
          (some ⟨false⟩) (some []) (some ⟨none⟩)).1.curr_player_list = none) ∨
       ((some [] : Option (List PlayerInfo)) = none ∧
        (update_server_info ⟨none, none, none, true, ServerStatus.RUNNING⟩
          (some ⟨false⟩) (some []) (some ⟨none⟩)).1.curr_server_stat = some ⟨false⟩ ∧
        (update_server_info ⟨none, none, none, true, ServerStatus.RUNNING⟩
          (some ⟨false⟩) (some []) (some ⟨none⟩)).1.curr_player_list = none) ∨
       (some (GameList.mk none) = none ∧
        (update_server_info ⟨none, none, none, true, ServerStatus.RUNNING⟩
          (some ⟨false⟩) (some []) (some ⟨none⟩)).1.curr_server_stat = some ⟨false⟩ ∧
        (update_server_info ⟨none, none, none, true, ServerStatus.RUNNING⟩
          (some ⟨false⟩) (some []) (some ⟨none⟩)).1.curr_player_list = some []))) :=
  C9_snapshot_prefix ⟨none, none, none, true, ServerStatus.RUNNING⟩
    (some ⟨false⟩) (some []) (some ⟨none⟩)

/-- C10 counterexample: with the RCON client disconnected and a
matching snapshot, `set_whitelist_enabled` returns `False`, not the
`True` the claim asserts (the connectivity guard runs first). -/
theorem C10_counterexample :
    (set_whitelist_enabled ⟨some ⟨true⟩, none, none, false, ServerStatus.RUNNING⟩
      true none).2.2 = some false ∧
    some false ≠ (some true : Option Bool) :=
  ⟨rfl, by decide⟩

/-- C10 (amended): when the RCON client is connected, the status is
RUNNING, and the current statistics snapshot already reports the
requested whitelist state, the call returns `True` without sending any
RCON command and with the supervisor state unchanged. -/
theorem C10_whitelist_noop (st : SrvState) (enabled : Bool)
    (resp : Option (List Char)) (stat : ServerStat)
    (hconn : st.rcon_connected = true) (hrun : st.status = ServerStatus.RUNNING)
    (hstat : st.curr_server_stat = some stat)
    (hmatch : stat.isEnforcingWhitelist = enabled) :
    set_whitelist_enabled st enabled resp = (st, [], some true) := by
  unfold set_whitelist_enabled
  rw [if_neg (by simp [hconn, hrun]), hstat]
  simp [hmatch]

/-- Witness for the amended C10 theorem. -/
theorem C10_whitelist_noop_witness :
    set_whitelist_enabled ⟨some ⟨true⟩, none, none, true, ServerStatus.RUNNING⟩
      true (some "x".data) = (⟨some ⟨true⟩, none, none, true, ServerStatus.RUNNING⟩,
        [], some true) :=
  C10_whitelist_noop ⟨some ⟨true⟩, none, none, true, ServerStatus.RUNNING⟩
    true (some "x".data) ⟨true⟩ rfl rfl rfl rfl

theorem regWait_true (old : List String) (start : Nat) :
    ∀ (polls : List RegPoll) (st : RegState),
    (regWait old start st polls).2 = some true →
    (regWait old start st polls).1.registered = true ∧
    (st.registered = true ∨
      ∃ ids now pe, RegPoll.ok ids now pe ∈ polls ∧
        (∃ i ∈ ids, ¬ i ∈ old) ∧ 15 < now - start) := by
  intro polls
  induction polls with
  | nil =>
    intro st h
    by_cases hreg : st.registered
    · simp only [regWait, if_pos hreg]
      exact ⟨hreg, Or.inl hreg⟩
    · rw [regWait, if_neg hreg] at h
      simp at h
  | cons p ps ih =>
    intro st h
    by_cases hreg : st.registered
    · rw [regWait, if_pos hreg] at h ⊢
      exact ⟨hreg, Or.inl hreg⟩
    · rw [regWait, if_neg hreg] at h ⊢
      cases p with
      | fail =>
        simp only [regStep] at h ⊢
        obtain ⟨h1, h2⟩ := ih _ h
        refine ⟨h1, Or.inr ?_⟩
        rcases h2 with h3 | ⟨ids, now, pe, hmem, hp⟩
        · exact absurd h3 (by simp [hreg])
        · exact ⟨ids, now, pe, List.mem_cons_of_mem _ hmem, hp⟩
      | notOK =>
        simp only [regStep] at h ⊢
        obtain ⟨h1, h2⟩ := ih _ h
        refine ⟨h1, Or.inr ?_⟩
        rcases h2 with h3 | ⟨ids, now, pe, hmem, hp⟩
        · exact absurd h3 (by simp [hreg])
        · exact ⟨ids, now, pe, List.mem_cons_of_mem _ hmem, hp⟩
      | ok ids now pe =>
        cases pe with
        | some code =>
          simp only [regStep] at h
          simp at h
        | none =>
          simp only [regStep] at h ⊢
          by_cases hcond : (ids.filter (fun i => ¬ i ∈ old)) ≠ [] ∧ 15 < now - start
          · rw [if_pos (by exact ⟨hcond.1, hcond.2⟩)] at h ⊢
            obtain ⟨h1, _⟩ := ih _ h
            refine ⟨h1, Or.inr ⟨ids, now, none, List.mem_cons_self _ _, ?_, hcond.2⟩⟩
            have hne := hcond.1
            rcases List.exists_mem_of_ne_nil _ hne with ⟨i, hi⟩
            have := List.mem_filter.mp hi
            exact ⟨i, this.1, by simpa using this.2⟩
          · rw [if_neg (fun hc => hcond ⟨hc.1, hc.2⟩)] at h ⊢
            obtain ⟨h1, h2⟩ := ih _ h
            refine ⟨h1, Or.inr ?_⟩
            rcases h2 with h3 | ⟨ids2, now2, pe2, hmem, hp⟩
            · exact absurd h3 (by simp [hreg])
            · exact ⟨ids2, now2, pe2, List.mem_cons_of_mem _ hmem, hp⟩

/-- C2: during `start()`, the supervisor reaches status RUNNING (with
`registered = true`) only when some successful `findServers` poll
returned a lobby id outside the stale set captured at launch AND more
than 15 seconds (hence at least 15 seconds) had elapsed since the
child process was launched. -/
theorem C2_registration_gate (old : List String) (start interval0 : Nat)
    (polls : List RegPoll)
    (h : (startRegPhase old start interval0 polls).2.2 = ServerStatus.RUNNING) :
    (startRegPhase old start interval0 polls).1.registered = true ∧
    ∃ ids now pe, RegPoll.ok ids now pe ∈ polls ∧
      (∃ i ∈ ids, ¬ i ∈ old) ∧ 15 < now - start := by
  have hmain := regWait_true old start polls ⟨false, none, interval0⟩
  unfold startRegPhase at h ⊢
  cases hpair : regWait old start ⟨false, none, interval0⟩ polls with
  | mk st r =>
    rw [hpair] at hmain h
    cases r with
    | none => exact ServerStatus.noConfusion h
    | some b =>
      cases b with
      | false => exact ServerStatus.noConfusion h
      | true =>
        obtain ⟨h1, h2⟩ := hmain rfl
        refine ⟨h1, ?_⟩
        rcases h2 with h3 | h3
        · exact absurd h3 (by simp)
        · exact h3

/-- Witness for C2: a concrete run registering on a fresh lobby id 20
seconds after launch. -/
theorem C2_registration_gate_witness :
    ((startRegPhase ["a"] 0 2 [RegPoll.ok ["b"] 20 none]).2.2 = ServerStatus.RUNNING) ∧
    ((startRegPhase ["a"] 0 2 [RegPoll.ok ["b"] 20 none]).1.registered = true ∧
      ∃ ids now pe, RegPoll.ok ids now pe ∈ [RegPoll.ok ["b"] 20 none] ∧
        (∃ i ∈ ids, ¬ i ∈ ["a"]) ∧ 15 < now - 0) :=
  ⟨by decide, C2_registration_gate ["a"] 0 2 [RegPoll.ok ["b"] 20 none] (by decide)⟩

/-- C3 counterexample: on a child crash while RUNNING, `server_loop`
breaks out and runs `kill()`, which sets the status straight to OFF —
the transition (RUNNING, OFF) skips STOPPING and is not an edge of the
claimed DAG. -/
theorem C3_counterexample :
    (server_loop_finish ⟨none, none, none, true, ServerStatus.RUNNING⟩).status
      = ServerStatus.OFF ∧
    ¬ (ServerStatus.RUNNING, ServerStatus.OFF) ∈ dagEdges :=
  ⟨rfl, by decide⟩

/-- C3 (amended): every status change follows an edge of the DAG
Off→Starting→Running→Stopping→Off, except that `kill()` sets OFF from
any state (the crash and forced-exit paths take Running→Off or
Starting→Off directly): `shutdown` (reachable only at RUNNING or
STOPPING) either leaves the status or follows Running→Stopping;
`kill` always ends at OFF; the registration phase of `start()` only
produces STARTING or RUNNING, entered along DAG edges. -/
theorem C3_status_edges :
    (∀ (st : SrvState) (sendOk : Bool),
      st.status = ServerStatus.RUNNING ∨ st.status = ServerStatus.STOPPING →
      (shutdown st sendOk).1.status = st.status ∨
      (st.status, (shutdown st sendOk).1.status) ∈ dagEdges)
    ∧ (∀ st : SrvState, (kill st).status = ServerStatus.OFF)
    ∧ (∀ (old : List String) (start interval0 : Nat) (polls : List RegPoll),
        ((startRegPhase old start interval0 polls).2.2 = ServerStatus.STARTING ∧
          (ServerStatus.OFF, ServerStatus.STARTING) ∈ dagEdges) ∨
        ((startRegPhase old start interval0 polls).2.2 = ServerStatus.RUNNING ∧
          (ServerStatus.STARTING, ServerStatus.RUNNING) ∈ dagEdges)) := by
  refine ⟨?_, ?_, ?_⟩
  · intro st sendOk hcall
    unfold shutdown
    by_cases hc : ¬ st.rcon_connected
    · rw [if_pos hc]
      exact Or.inl rfl
    · rw [if_neg hc]
      by_cases hs : sendOk
      · rw [if_pos hs]
        rcases hcall with h1 | h1
        · refine Or.inr ?_
          rw [h1]
          simp [dagEdges]
        · refine Or.inl ?_
          rw [h1]
      · rw [if_neg hs]
        exact Or.inl rfl
  · intro st
    rfl
  · intro old start interval0 polls
    unfold startRegPhase
    cases hrw : regWait old start ⟨false, none, interval0⟩ polls with
    | mk st r =>
      match r with
      | some true => exact Or.inr ⟨rfl, by decide⟩
      | some false => exact Or.inl ⟨rfl, by decide⟩
      | none => exact Or.inl ⟨rfl, by decide⟩

/-- Witness for the amended C3 theorem: a graceful shutdown from
RUNNING follows the Running→Stopping edge. -/
theorem C3_status_edges_witness :
    ((shutdown ⟨none, none, none, true, ServerStatus.RUNNING⟩ true).1.status
        = ServerStatus.RUNNING ∨
      (ServerStatus.RUNNING,
        (shutdown ⟨none, none, none, true, ServerStatus.RUNNING⟩ true).1.status)
        ∈ dagEdges) ∧
    (kill ⟨none, none, none, true, ServerStatus.RUNNING⟩).status = ServerStatus.OFF :=
  ⟨C3_status_edges.1 ⟨none, none, none, true, ServerStatus.RUNNING⟩ true (Or.inl rfl),
    C3_status_edges.2.1 ⟨none, none, none, true, ServerStatus.RUNNING⟩⟩

/-! ### Player-diff lemmas (C1) -/

theorem nodup_mem_iff_singleton {l : List String} {g : String}
    (hnd : l.Nodup) (hiff : ∀ x, x ∈ l ↔ x = g) : l = [g] := by
  cases l with
  | nil => exact absurd ((hiff g).mpr rfl) (by simp)
  | cons a t =>
    have ha : a = g := (hiff a).mp (List.mem_cons_self _ _)
    subst ha
    have ht : t = [] := by
      cases t with
      | nil => rfl
      | cons b u =>
        have hb : b = a := (hiff b).mp (List.mem_cons_of_mem _ (List.mem_cons_self _ _))
        subst hb
        exact absurd hnd (by simp)
    rw [ht]

theorem filter_guid_unique {curr : List PlayerInfo} {pi : PlayerInfo} {g : String}
    (hnd : (curr.map PlayerInfo.playerGuid).Nodup)
    (hmem : pi ∈ curr) (hg : pi.playerGuid = g) :
    curr.filter (fun x => x.playerGuid ∈ ([g] : List String)) = [pi] := by
  induction curr with
  | nil => simp at hmem
  | cons a rest ih =>
    rw [List.map_cons, List.nodup_cons] at hnd
    by_cases hag : a.playerGuid = g
    · have hpa : pi = a := by
        rcases List.mem_cons.mp hmem with h1 | h1
        · exact h1
        · exact absurd (hg ▸ List.mem_map_of_mem PlayerInfo.playerGuid h1)
            (hag ▸ hnd.1)
      subst hpa
      rw [List.filter_cons_of_pos (by simp [hag])]
      have hrest : rest.filter (fun x => x.playerGuid ∈ ([g] : List String)) = [] := by
        rw [List.filter_eq_nil_iff]
        intro x hx
        simp only [List.mem_singleton, decide_eq_true_eq]
        intro hxg
        exact (hag ▸ hnd.1) (hxg ▸ List.mem_map_of_mem PlayerInfo.playerGuid hx)
      rw [hrest]
    · have hpm : pi ∈ rest := by
        rcases List.mem_cons.mp hmem with h1 | h1
        · exact absurd (h1 ▸ hg) hag
        · exact h1
      rw [List.filter_cons_of_neg (by simp [hag]), ih hnd.2 hpm]

theorem length_of_insert_mem {a b : List String} {g : String}
    (hna : a.Nodup) (hnb : b.Nodup) (hg : ¬ g ∈ b)
    (hiff : ∀ x, x ∈ a ↔ x ∈ b ∨ x = g) : a.length = b.length + 1 := by
  have hperm : a.Perm (g :: b) := by
    apply List.perm_of_nodup_nodup_toFinset_eq hna (by simp [List.nodup_cons, hg, hnb])
    ext x
    simp only [List.mem_toFinset, List.mem_cons]
    rw [hiff x]
    tauto
  have := hperm.length_eq
  simpa using this

theorem onlineGuids_nodup {l : List PlayerInfo}
    (h : (l.map PlayerInfo.playerGuid).Nodup) : (onlineGuids l).Nodup := by
  unfold onlineGuids onlinePlayers
  exact h.sublist (List.Sublist.map _ (List.filter_sublist _))

theorem onlineGuids_length (l : List PlayerInfo) :
    (onlineGuids l).length = (onlinePlayers l).length := by
  unfold onlineGuids
  simp

theorem mem_guidSetDiff {a b : List String} {x : String} :
    x ∈ guidSetDiff a b ↔ x ∈ a ∧ ¬ x ∈ b := by
  unfold guidSetDiff
  rw [List.mem_dedup, List.mem_filter]
  simp

theorem guidSetDiff_eq_singleton {a b : List String} {g : String}
    (hiff : ∀ x, x ∈ a ↔ x ∈ b ∨ x = g) (hg : ¬ g ∈ b) :
    guidSetDiff a b = [g] := by
  have hnd : (guidSetDiff a b).Nodup := by
    unfold guidSetDiff
    exact List.nodup_dedup _
  apply nodup_mem_iff_singleton hnd
  intro x
  rw [mem_guidSetDiff]
  constructor
  · rintro ⟨h1, h2⟩
    rcases (hiff x).mp h1 with h3 | h3
    · exact absurd h3 h2
    · exact h3
  · rintro rfl
    exact ⟨(hiff _).mpr (Or.inr rfl), hg⟩

theorem mem_onlineGuids {l : List PlayerInfo} {g : String} (h : g ∈ onlineGuids l) :
    ∃ pi ∈ l, pi.playerGuid = g := by
  unfold onlineGuids onlinePlayers at h
  rw [List.mem_map] at h
  obtain ⟨pi, hpi, hg⟩ := h
  exact ⟨pi, (List.filter_sublist _).mem hpi, hg⟩

/-- C1 counterexample: the in-game GUID sets of the two polls differ by
exactly the single GUID g2 (present earlier, absent later), yet no
PLAYER_LEAVE event is emitted, because the leave events are built from
the records of the NEW player list and g2's record is gone from it. -/
theorem C1_counterexample :
    diffEvents [PlayerInfo.mk "g2" "n2" true] [] = [] ∧
    onlineGuids [PlayerInfo.mk "g2" "n2" true] = ["g2"] ∧
    onlineGuids ([] : List PlayerInfo) = [] :=
  ⟨rfl, rfl, rfl⟩

/-- C1 (amended): assume the GUIDs within each poll's record list are
pairwise distinct.  If the in-game GUID sets of two consecutive
successful polls differ by exactly one GUID g appearing, exactly one
PLAYER_JOIN event carrying g is emitted and nothing else; if they
differ by exactly one GUID g disappearing AND g's record still appears
in the later poll's list (as an offline entry), exactly one
PLAYER_LEAVE event carrying g is emitted and nothing else. -/
theorem C1_single_diff_events (prev curr : List PlayerInfo) (g : String)
    (hndp : (prev.map PlayerInfo.playerGuid).Nodup)
    (hndc : (curr.map PlayerInfo.playerGuid).Nodup) :
    ((∀ x, x ∈ onlineGuids curr ↔ x ∈ onlineGuids prev ∨ x = g) →
      ¬ g ∈ onlineGuids prev →
      ∃ n, diffEvents prev curr = [DiffEvent.join n g])
    ∧ ((∀ x, x ∈ onlineGuids prev ↔ x ∈ onlineGuids curr ∨ x = g) →
      ¬ g ∈ onlineGuids curr →
      (∃ pi ∈ curr, pi.playerGuid = g) →
      ∃ n, diffEvents prev curr = [DiffEvent.leave n g]) := by
  constructor
  · intro hiff hgp
    have hlen : (onlineGuids curr).length = (onlineGuids prev).length + 1 :=
      length_of_insert_mem (onlineGuids_nodup hndc) (onlineGuids_nodup hndp) hgp hiff
    rw [onlineGuids_length, onlineGuids_length] at hlen
    have hdiff : guidSetDiff (onlineGuids curr) (onlineGuids prev) = [g] :=
      guidSetDiff_eq_singleton hiff hgp
    obtain ⟨pi, hpimem, hpig⟩ := mem_onlineGuids ((hiff g).mpr (Or.inr rfl))
    refine ⟨pi.playerName, ?_⟩
    have hjoin : joinEvents prev curr = [DiffEvent.join pi.playerName g] := by
      unfold joinEvents
      rw [hdiff,
        if_pos (show (onlinePlayers prev).length < (onlinePlayers curr).length by omega),
        if_pos (by simp), filter_guid_unique hndc hpimem hpig]
      simp [hpig]
    have hleave : leaveEvents prev curr = [] := by
      unfold leaveEvents
      rw [if_neg (show ¬ (onlinePlayers curr).length < (onlinePlayers prev).length by omega)]
    unfold diffEvents
    rw [hjoin, hleave]
    simp
  · intro hiff hgc hrec
    have hlen : (onlineGuids prev).length = (onlineGuids curr).length + 1 :=
      length_of_insert_mem (onlineGuids_nodup hndp) (onlineGuids_nodup hndc) hgc hiff
    rw [onlineGuids_length, onlineGuids_length] at hlen
    have hdiff : guidSetDiff (onlineGuids prev) (onlineGuids curr) = [g] :=
      guidSetDiff_eq_singleton hiff hgc
    obtain ⟨pi, hpimem, hpig⟩ := hrec
    refine ⟨pi.playerName, ?_⟩
    have hleave : leaveEvents prev curr = [DiffEvent.leave pi.playerName g] := by
      unfold leaveEvents
      rw [hdiff,
        if_pos (show (onlinePlayers curr).length < (onlinePlayers prev).length by omega),
        if_pos (by simp), filter_guid_unique hndc hpimem hpig]
      simp [hpig]
    have hjoin : joinEvents prev curr = [] := by
      unfold joinEvents
      rw [if_neg (show ¬ (onlinePlayers prev).length < (onlinePlayers curr).length by omega)]
    unfold diffEvents
    rw [hjoin, hleave]
    rfl

/-- Witness for the amended C1 theorem: one player joins between two
polls that otherwise agree. -/
theorem C1_single_diff_events_witness :
    ((∀ x, x ∈ onlineGuids [PlayerInfo.mk "g1" "a" true, PlayerInfo.mk "g3" "c" true]
        ↔ x ∈ onlineGuids [PlayerInfo.mk "g1" "a" true] ∨ x = "g3") →
      ¬ "g3" ∈ onlineGuids [PlayerInfo.mk "g1" "a" true] →
      ∃ n, diffEvents [PlayerInfo.mk "g1" "a" true]
        [PlayerInfo.mk "g1" "a" true, PlayerInfo.mk "g3" "c" true]
        = [DiffEvent.join n "g3"])
    ∧ ((∀ x, x ∈ onlineGuids [PlayerInfo.mk "g1" "a" true]
        ↔ x ∈ onlineGuids [PlayerInfo.mk "g1" "a" true, PlayerInfo.mk "g3" "c" true] ∨ x = "g3") →
      ¬ "g3" ∈ onlineGuids [PlayerInfo.mk "g1" "a" true, PlayerInfo.mk "g3" "c" true] →
      (∃ pi ∈ [PlayerInfo.mk "g1" "a" true, PlayerInfo.mk "g3" "c" true],
        pi.playerGuid = "g3") →
      ∃ n, diffEvents [PlayerInfo.mk "g1" "a" true]
        [PlayerInfo.mk "g1" "a" true, PlayerInfo.mk "g3" "c" true]
        = [DiffEvent.leave n "g3"]) :=
  C1_single_diff_events [PlayerInfo.mk "g1" "a" true]
    [PlayerInfo.mk "g1" "a" true, PlayerInfo.mk "g3" "c" true] "g3"
    (by decide) (by decide)

/-! ### PlayerProperties codec lemmas (C7) -/

theorem splitAtChar_append {q : Char} {a : List Char} (b : List Char) (h : ¬ q ∈ a) :
    splitAtChar q (a ++ q :: b) = some (a, b) := by
  induction a with
  | nil => simp [splitAtChar]
  | cons c cs ih =>
    show splitAtChar q (c :: (cs ++ q :: b)) = _
    simp only [splitAtChar]
    rw [if_neg (fun hc => h (by rw [hc]; exact List.mem_cons_self _ _)),
      ih (fun hm => h (List.mem_cons_of_mem _ hm))]
    rfl

theorem subQuoteF_congr (q : Char) :
    ∀ f g l, l.length ≤ f → l.length ≤ g → subQuoteF q f l = subQuoteF q g l := by
  intro f
  induction f with
  | zero =>
    intro g l hf _
    have hl : l = [] := List.length_eq_zero.mp (Nat.le_zero.mp hf)
    subst hl
    cases g <;> rfl
  | succ f ih =>
    intro g l hf hg
    cases g with
    | zero =>
      have hl : l = [] := List.length_eq_zero.mp (Nat.le_zero.mp hg)
      subst hl
      rfl
    | succ g =>
      cases l with
      | nil => rfl
      | cons c cs =>
        have hcs : cs.length ≤ f := by
          simp only [List.length_cons] at hf
          omega
        have hcs2 : cs.length ≤ g := by
          simp only [List.length_cons] at hg
          omega
        show (if c = q then _ else _) = (if c = q then _ else _)
        by_cases hc : c = q
        · rw [if_pos hc, if_pos hc]
          cases hsp : splitAtChar q cs with
          | none => rfl
          | some pr =>
            obtain ⟨inner, after⟩ := pr
            have hlt : after.length < cs.length := splitAtChar_shrinks hsp
            show inner ++ subQuoteF q f after = inner ++ subQuoteF q g after
            rw [ih g after (by omega) (by omega)]
        · rw [if_neg hc, if_neg hc, ih g cs hcs hcs2]

theorem subQuote_eq (q : Char) (l : List Char) :
    subQuote q l =
      match l with
      | [] => []
      | c :: cs =>
        if c = q then
          match splitAtChar q cs with
          | some (inner, after) => inner ++ subQuote q after
          | none => c :: cs
        else c :: subQuote q cs := by
  cases l with
  | nil => rfl
  | cons c cs =>
    show subQuoteF q (cs.length + 1) (c :: cs) = _
    by_cases hc : c = q
    · show (if c = q then _ else _) = (if c = q then _ else _)
      rw [if_pos hc, if_pos hc]
      cases hsp : splitAtChar q cs with
      | none => rfl
      | some pr =>
        obtain ⟨inner, after⟩ := pr
        have hlt : after.length < cs.length := splitAtChar_shrinks hsp
        show inner ++ subQuoteF q cs.length after = inner ++ subQuote q after
        rw [show subQuote q after = subQuoteF q after.length after from rfl,
          subQuoteF_congr q cs.length after.length after (by omega) le_rfl]
    · show (if c = q then _ else _) = (if c = q then _ else _)
      rw [if_neg hc, if_neg hc]
      rfl

theorem subQuote_nil (q : Char) : subQuote q [] = [] := rfl

theorem subQuote_not_mem {q : Char} {l : List Char} (h : ¬ q ∈ l) :
    subQuote q l = l := by
  induction l with
  | nil => exact subQuote_nil q
  | cons c cs ih =>
    rw [subQuote_eq]
    show (if c = q then _ else _) = c :: cs
    rw [if_neg (fun hc => h (by rw [hc]; exact List.mem_cons_self _ _)),
      ih (fun hm => h (List.mem_cons_of_mem _ hm))]

theorem subQuote_wrap {q : Char} {n : List Char} (h : ¬ q ∈ n) :
    subQuote q (q :: n ++ [q]) = n := by
  rw [show (q :: n ++ [q] : List Char) = q :: (n ++ q :: []) from rfl, subQuote_eq]
  show (if q = q then _ else _) = n
  rw [if_pos rfl]
  split
  next inner after hx =>
    rw [splitAtChar_append [] h] at hx
    have h1 : n = inner ∧ [] = after := by
      have := Option.some_inj.mp hx
      exact ⟨((Prod.mk.injEq _ _ _ _).mp this).1, ((Prod.mk.injEq _ _ _ _).mp this).2⟩
    rw [← h1.1, ← h1.2, subQuote_nil]
    simp
  next hx =>
    rw [splitAtChar_append [] h] at hx
    exact absurd hx (by simp)

theorem splitComma_append {a : List Char} (b : List Char) (h : ¬ ',' ∈ a) :
    splitComma (a ++ ',' :: b) = a :: splitComma b := by
  induction a with
  | nil => simp [splitComma]
  | cons c cs ih =>
    show splitComma (c :: (cs ++ ',' :: b)) = _
    simp only [splitComma]
    rw [if_neg (fun hc => h (by rw [hc]; exact List.mem_cons_self _ _)),
      ih (fun hm => h (List.mem_cons_of_mem _ hm))]

theorem splitComma_single {l : List Char} (h : ¬ ',' ∈ l) :
    splitComma l = [l] := by
  induction l with
  | nil => rfl
  | cons c cs ih =>
    simp only [splitComma]
    rw [if_neg (fun hc => h (by rw [hc]; exact List.mem_cons_self _ _)),
      ih (fun hm => h (List.mem_cons_of_mem _ hm))]

theorem reParen_wrap (core : List Char) : reParen ('(' :: core ++ [')']) = some core := by
  have h1 : List.dropWhile (fun c => c ≠ '(') ('(' :: core ++ [')'])
      = '(' :: core ++ [')'] := by
    simp [List.dropWhile_cons]
  have h2 : List.dropWhile (fun c => c ≠ ')') ((core ++ [')']).reverse)
      = ')' :: core.reverse := by
    have h3 : (core ++ [')']).reverse = ')' :: core.reverse := by simp
    rw [h3]
    simp [List.dropWhile_cons]
  unfold reParen
  rw [h1]
  show (match List.dropWhile (fun c => c ≠ ')') ((core ++ [')']).reverse) with
    | [] => none
    | _ :: revInner => some revInner.reverse) = some core
  rw [h2]
  simp

theorem pcatOfString_value (c : PCat) : pcatOfString (pcatValue c) = some c := by
  cases c <;> rfl

theorem pstrip_wrapped {a b : Char} (n : List Char)
    (ha : isPySpace a = false) (hb : isPySpace b = false) :
    pstrip (a :: n ++ [b]) = a :: n ++ [b] := by
  apply pstrip_eq_self
  · intro c hc
    have : a = c := by simpa using hc
    rw [← this]; exact ha
  · intro c hc
    have h1 : (a :: n) ++ [b] = a :: n ++ [b] := rfl
    rw [← h1, List.getLast?_concat] at hc
    have : b = c := by simpa using hc
    rw [← this]; exact hb

theorem not_mem_keyval {c : Char} {k v : List Char} (hk : ¬ c ∈ k) (hv : ¬ c ∈ v)
    (h1 : c ≠ '=') : ¬ c ∈ (k ++ '=' :: v) := by
  intro hm
  rcases List.mem_append.mp hm with h | h
  · exact hk h
  · rcases List.mem_cons.mp h with h | h
    · exact h1 h
    · exact hv h

theorem not_mem_quoted {c : Char} {n : List Char} (hn : ¬ c ∈ n) (h2 : c ≠ '\"') :
    ¬ c ∈ ('\"' :: (n ++ ['\"'])) := by
  intro hm
  rcases List.mem_cons.mp hm with h | h
  · exact h2 h
  · rcases List.mem_append.mp h with h | h
    · exact hn h
    · exact h2 (List.mem_singleton.mp h)

theorem pcat_pstrip (c : PCat) : pstrip (pcatValue c) = pcatValue c := by
  cases c <;> decide

theorem pcat_no_comma (c : PCat) : ¬ ',' ∈ pcatValue c := by
  cases c <;> decide

theorem pcat_no_dq (c : PCat) : ¬ '\"' ∈ pcatValue c := by
  cases c <;> decide

theorem pcat_no_sq (c : PCat) : ¬ '\x27' ∈ pcatValue c := by
  cases c <;> decide

theorem stripQuotes_quoted {n : List Char} (hq : ¬ '\"' ∈ n) (hs : ¬ '\x27' ∈ n) :
    stripQuotes (pstrip ('\"' :: (n ++ ['\"']))) = n := by
  have hps : pstrip ('\"' :: n ++ ['\"']) = '\"' :: n ++ ['\"'] :=
    pstrip_wrapped n rfl rfl
  rw [show ('\"' :: (n ++ ['\"'])) = '\"' :: n ++ ['\"'] from rfl, hps]
  unfold stripQuotes
  have hnosq : ¬ '\x27' ∈ ('\"' :: n ++ ['\"']) :=
    not_mem_quoted hs (by decide)
  rw [subQuote_not_mem hnosq]
  exact subQuote_wrap hq

theorem ppArg_firstJoin (acc : PPAccum) {n : List Char} (hq : ¬ '\"' ∈ n)
    (hs : ¬ '\x27' ∈ n) :
    ppArg acc ("PlayerFirstJoinName".data ++ '=' :: '\"' :: (n ++ ['\"']))
      = some { acc with firstJoin := some n } := by
  have hk : splitEq ("PlayerFirstJoinName".data ++ '=' :: '\"' :: (n ++ ['\"']))
      = some ("PlayerFirstJoinName".data, '\"' :: (n ++ ['\"'])) :=
    splitEq_append (by decide)
  have hkey : pstrip "PlayerFirstJoinName".data = "PlayerFirstJoinName".data := by decide
  simp only [ppArg, hk, hkey]
  rw [if_pos trivial, stripQuotes_quoted hq hs]

theorem ppArg_category (acc : PPAccum) (c : PCat) :
    ppArg acc ("PlayerCategory".data ++ '=' :: pcatValue c)
      = some { acc with category := some c } := by
  have hk : splitEq ("PlayerCategory".data ++ '=' :: pcatValue c)
      = some ("PlayerCategory".data, pcatValue c) :=
    splitEq_append (by decide)
  have hkey : pstrip "PlayerCategory".data = "PlayerCategory".data := by decide
  have hval : stripQuotes (pcatValue c) = pcatValue c := by
    unfold stripQuotes
    rw [subQuote_not_mem (pcat_no_sq c), subQuote_not_mem (pcat_no_dq c)]
  simp only [ppArg, hk, hkey, pcat_pstrip, hval, pcatOfString_value]
  rw [if_pos trivial, if_neg (by decide)]

theorem ppArg_guid (acc : PPAccum) {n : List Char} (hq : ¬ '\"' ∈ n)
    (hs : ¬ '\x27' ∈ n) :
    ppArg acc ("PlayerGuid".data ++ '=' :: '\"' :: (n ++ ['\"']))
      = some { acc with guid := some n } := by
  have hk : splitEq ("PlayerGuid".data ++ '=' :: '\"' :: (n ++ ['\"']))
      = some ("PlayerGuid".data, '\"' :: (n ++ ['\"'])) :=
    splitEq_append (by decide)
  have hkey : pstrip "PlayerGuid".data = "PlayerGuid".data := by decide
  simp only [ppArg, hk, hkey]
  rw [if_pos trivial, stripQuotes_quoted hq hs, if_neg (by decide), if_neg (by decide)]

theorem ppArg_recentJoin (acc : PPAccum) {n : List Char} (hq : ¬ '\"' ∈ n)
    (hs : ¬ '\x27' ∈ n) :
    ppArg acc ("PlayerRecentJoinName".data ++ '=' :: '\"' :: (n ++ ['\"']))
      = some { acc with recentJoin := some n } := by
  have hk : splitEq ("PlayerRecentJoinName".data ++ '=' :: '\"' :: (n ++ ['\"']))
      = some ("PlayerRecentJoinName".data, '\"' :: (n ++ ['\"'])) :=
    splitEq_append (by decide)
  have hkey : pstrip "PlayerRecentJoinName".data = "PlayerRecentJoinName".data := by decide
  simp only [ppArg, hk, hkey]
  rw [if_pos trivial, stripQuotes_quoted hq hs, if_neg (by decide), if_neg (by decide),
    if_neg (by decide)]

/-- The encoded string reassociated into its comma-split fragments. -/
theorem pp_to_string_shape (p : PlayerProps) :
    pp_to_string p = '(' ::
      (("PlayerFirstJoinName".data ++ '=' :: '\"' :: (p.PlayerFirstJoinName ++ ['\"']))
        ++ ',' :: (("PlayerCategory".data ++ '=' :: pcatValue p.PlayerCategory)
        ++ ',' :: (("PlayerGuid".data ++ '=' :: '\"' :: (p.PlayerGuid ++ ['\"']))
        ++ ',' :: ("PlayerRecentJoinName".data ++ '=' :: '\"'
              :: (p.PlayerRecentJoinName ++ ['\"'])))))
      ++ [')'] := by
  unfold pp_to_string
  have hA : ("PlayerFirstJoinName=\"".data : List Char)
      = "PlayerFirstJoinName".data ++ '=' :: ['\"'] := rfl
  have hB : ("\",PlayerCategory=".data : List Char)
      = '\"' :: ',' :: "PlayerCategory".data ++ ['='] := rfl
  have hD : (",PlayerGuid=\"".data : List Char)
      = ',' :: "PlayerGuid".data ++ '=' :: ['\"'] := rfl
  have hE : ("\",PlayerRecentJoinName=\"".data : List Char)
      = '\"' :: ',' :: "PlayerRecentJoinName".data ++ '=' :: ['\"'] := rfl
  have hF : ("\"".data : List Char) = ['\"'] := rfl
  rw [hA, hB, hD, hE, hF]
  simp [List.append_assoc]

/-- The regex/split pipeline of `from_string` exactly inverts
`to_string` on clean entries. -/
theorem pp_from_to (p : PlayerProps) (hp : ppClean p) :
    pp_from_string (pp_to_string p) = some p := by
  obtain ⟨hN, hG, hR⟩ := hp
  have hre : reParen (pp_to_string p) = some
      (("PlayerFirstJoinName".data ++ '=' :: '\"' :: (p.PlayerFirstJoinName ++ ['\"']))
        ++ ',' :: (("PlayerCategory".data ++ '=' :: pcatValue p.PlayerCategory)
        ++ ',' :: (("PlayerGuid".data ++ '=' :: '\"' :: (p.PlayerGuid ++ ['\"']))
        ++ ',' :: ("PlayerRecentJoinName".data ++ '=' :: '\"'
              :: (p.PlayerRecentJoinName ++ ['\"']))))) := by
    rw [pp_to_string_shape]
    exact reParen_wrap _
  have hsc : splitComma
      (("PlayerFirstJoinName".data ++ '=' :: '\"' :: (p.PlayerFirstJoinName ++ ['\"']))
        ++ ',' :: (("PlayerCategory".data ++ '=' :: pcatValue p.PlayerCategory)
        ++ ',' :: (("PlayerGuid".data ++ '=' :: '\"' :: (p.PlayerGuid ++ ['\"']))
        ++ ',' :: ("PlayerRecentJoinName".data ++ '=' :: '\"'
              :: (p.PlayerRecentJoinName ++ ['\"'])))))
      = [("PlayerFirstJoinName".data ++ '=' :: '\"' :: (p.PlayerFirstJoinName ++ ['\"'])),
         ("PlayerCategory".data ++ '=' :: pcatValue p.PlayerCategory),
         ("PlayerGuid".data ++ '=' :: '\"' :: (p.PlayerGuid ++ ['\"'])),
         ("PlayerRecentJoinName".data ++ '=' :: '\"'
              :: (p.PlayerRecentJoinName ++ ['\"']))] := by
    rw [splitComma_append _ (not_mem_keyval (by decide)
      (not_mem_quoted hN.1 (by decide)) (by decide))]
    rw [splitComma_append _ (not_mem_keyval (by decide) (pcat_no_comma _) (by decide))]
    rw [splitComma_append _ (not_mem_keyval (by decide)
      (not_mem_quoted hG.1 (by decide)) (by decide))]
    rw [splitComma_single (not_mem_keyval (by decide)
      (not_mem_quoted hR.1 (by decide)) (by decide))]
  have hfold : List.foldlM ppArg (⟨none, none, none, none⟩ : PPAccum)
      [("PlayerFirstJoinName".data ++ '=' :: '\"' :: (p.PlayerFirstJoinName ++ ['\"'])),
       ("PlayerCategory".data ++ '=' :: pcatValue p.PlayerCategory),
       ("PlayerGuid".data ++ '=' :: '\"' :: (p.PlayerGuid ++ ['\"'])),
       ("PlayerRecentJoinName".data ++ '=' :: '\"' :: (p.PlayerRecentJoinName ++ ['\"']))]
      = some ⟨some p.PlayerFirstJoinName, some p.PlayerCategory,
              some p.PlayerGuid, some p.PlayerRecentJoinName⟩ := by
    rw [List.foldlM_cons, ppArg_firstJoin _ hN.2.1 hN.2.2.1]
    show List.foldlM ppArg
      (⟨some p.PlayerFirstJoinName, none, none, none⟩ : PPAccum) _ = _
    rw [List.foldlM_cons, ppArg_category]
    show List.foldlM ppArg
      (⟨some p.PlayerFirstJoinName, some p.PlayerCategory, none, none⟩ : PPAccum) _ = _
    rw [List.foldlM_cons, ppArg_guid _ hG.2.1 hG.2.2.1]
    show List.foldlM ppArg
      (⟨some p.PlayerFirstJoinName, some p.PlayerCategory,
        some p.PlayerGuid, none⟩ : PPAccum) _ = _
    rw [List.foldlM_cons, ppArg_recentJoin _ hR.2.1 hR.2.2.1]
    rfl
  simp only [pp_from_string, hre, hsc, hfold]
  rfl

/-- C6: the forced-field claim fails for `HeartbeatInterval`.  On a
pre-existing file containing `HeartbeatInterval=100`, `ensure_config`
keeps `100` in the resulting config (and hence in the written file):
the source executes `config.HearbeatInterval = 55`, assigning a
misspelled attribute, so the correctly spelled dataclass field is never
forced to 55.  `VerbosePlayerProperties` is forced to `True` as
claimed. -/
theorem C6_heartbeat_not_forced :
    (ensure_config true
        "[/Script/Astro.AstroServerSettings]\nHeartbeatInterval=100\n".data
        false none (fun _ => true) "g".data "p".data).map
      (fun cw => (cw.1.HeartbeatInterval, cw.1.VerbosePlayerProperties))
    = some (VEntry.scalar (IValue.vstr "100".data),
            VEntry.scalar (IValue.vbool true)) := rfl

theorem dsconfig_to_props_eq (c : DSConfig) :
    dsconfig_to_props c = dsPropsCore c ++ dsPropsExit c
      ++ [("PlayerProperties".data, pp_list_encoder c.PlayerProperties)] := rfl

/-! ### Decimal digits -/

theorem digit_char_props {r : Nat} (h : r < 10) :
    isDigit (Char.ofNat (48 + r)) = true ∧ isPySpace (Char.ofNat (48 + r)) = false ∧
    Char.ofNat (48 + r) ≠ '.' ∧ Char.ofNat (48 + r) ≠ '-' ∧ Char.ofNat (48 + r) ≠ '+' ∧
    Char.ofNat (48 + r) ≠ '\n' ∧ (Char.ofNat (48 + r)).toNat = 48 + r := by
  interval_cases r <;> decide

theorem natDigitsF_congr :
    ∀ f g n, n ≤ f → n ≤ g → natDigitsF f n = natDigitsF g n := by
  intro f
  induction f with
  | zero =>
    intro g n hf _
    have hn : n = 0 := Nat.le_zero.mp hf
    subst hn
    cases g with
    | zero => rfl
    | succ g =>
      show _ = (if (0 : Nat) < 10 then _ else _)
      rw [if_pos (by decide)]
      rfl
  | succ f ih =>
    intro g n hf hg
    cases g with
    | zero =>
      have hn : n = 0 := Nat.le_zero.mp hg
      subst hn
      show (if (0 : Nat) < 10 then _ else _) = _
      rw [if_pos (by decide)]
      rfl
    | succ g =>
      show (if n < 10 then _ else _) = (if n < 10 then _ else _)
      by_cases h : n < 10
      · rw [if_pos h, if_pos h]
      · rw [if_neg h, if_neg h]
        have hdlt : n / 10 < n := Nat.div_lt_self (by omega) (by omega)
        rw [ih g (n / 10) (by omega) (by omega)]

theorem natDigits_eq (m : Nat) : natDigits m
    = if m < 10 then [Char.ofNat (48 + m)]
      else natDigits (m / 10) ++ [Char.ofNat (48 + m % 10)] := by
  cases m with
  | zero => rfl
  | succ k =>
    show natDigitsF (k + 1) (k + 1) = _
    show (if k + 1 < 10 then _ else _) = _
    by_cases h : k + 1 < 10
    · rw [if_pos h, if_pos h]
    · rw [if_neg h, if_neg h]
      have hdlt : (k + 1) / 10 < k + 1 := Nat.div_lt_self (by omega) (by omega)
      show natDigitsF k ((k + 1) / 10) ++ _ = natDigits ((k + 1) / 10) ++ _
      rw [show natDigits ((k + 1) / 10)
          = natDigitsF ((k + 1) / 10) ((k + 1) / 10) from rfl,
        natDigitsF_congr k ((k + 1) / 10) ((k + 1) / 10) (by omega) le_rfl]

theorem natDigits_ne_nil (m : Nat) : natDigits m ≠ [] := by
  rw [natDigits_eq]
  split
  · simp
  · simp

theorem natDigits_props (m : Nat) : ∀ c ∈ natDigits m,
    isDigit c = true ∧ isPySpace c = false ∧ c ≠ '.' ∧ c ≠ '-' ∧ c ≠ '+' ∧ c ≠ '\n' := by
  induction m using Nat.strong_induction_on with
  | _ m ih =>
    intro c hc
    rw [natDigits_eq] at hc
    by_cases h : m < 10
    · rw [if_pos h] at hc
      have hcq := List.mem_singleton.mp hc
      subst hcq
      have hp := digit_char_props h
      exact ⟨hp.1, hp.2.1, hp.2.2.1, hp.2.2.2.1, hp.2.2.2.2.1, hp.2.2.2.2.2.1⟩
    · rw [if_neg h] at hc
      rcases List.mem_append.mp hc with h1 | h1
      · exact ih (m / 10) (by omega) c h1
      · have hcq := List.mem_singleton.mp h1
        subst hcq
        have hp := digit_char_props (Nat.mod_lt m (by omega))
        exact ⟨hp.1, hp.2.1, hp.2.2.1, hp.2.2.2.1, hp.2.2.2.2.1, hp.2.2.2.2.2.1⟩

theorem foldl_natDigits (m : Nat) : ∀ a : Nat,
    (natDigits m).foldl (fun acc c => acc * 10 + (c.toNat - 48)) a
      = a * 10 ^ (natDigits m).length + m := by
  induction m using Nat.strong_induction_on with
  | _ m ih =>
    intro a
    rw [natDigits_eq]
    by_cases h : m < 10
    · rw [if_pos h]
      have ht := (digit_char_props h).2.2.2.2.2.2
      simp only [List.foldl_cons, List.foldl_nil, List.length_singleton, pow_one, ht]
      omega
    · rw [if_neg h]
      rw [List.foldl_append]
      rw [ih (m / 10) (by omega) a]
      have ht := (digit_char_props (Nat.mod_lt m (by omega))).2.2.2.2.2.2
      simp only [List.foldl_cons, List.foldl_nil, List.length_append,
        List.length_singleton, ht]
      have hsub : 48 + m % 10 - 48 = m % 10 := by omega
      rw [hsub]
      calc (a * 10 ^ (natDigits (m / 10)).length + m / 10) * 10 + m % 10
          = a * (10 ^ (natDigits (m / 10)).length * 10) + (m / 10 * 10 + m % 10) := by
            ring
        _ = a * 10 ^ ((natDigits (m / 10)).length + 1) + m := by
            rw [show m / 10 * 10 + m % 10 = m from by omega, pow_succ]

theorem digitsVal_natDigits (m : Nat) : digitsVal (natDigits m) = some m := by
  unfold digitsVal
  rw [if_neg]
  · rw [foldl_natDigits m 0]
    simp
  · intro hor
    rcases hor with h | h
    · exact natDigits_ne_nil m h
    · exact h (List.all_eq_true.mpr (fun c hc => (natDigits_props m c hc).1))

theorem pyRound_intCast (k : Int) : pyRound (k : ℚ) = k := by
  unfold pyRound
  rw [Int.floor_intCast]
  rw [if_pos (by norm_num)]

/-! ### The fakefloat codec round trip -/

theorem encode_pstrip (n : Int) :
    pstrip (encode_fakefloat n) = encode_fakefloat n := by
  apply pstrip_eq_self
  · intro c hc
    unfold encode_fakefloat intToDec at hc
    by_cases hn : n < 0
    · rw [if_pos hn] at hc
      have hh : (('-' :: natDigits n.natAbs) ++ ".000000".data).head? = some '-' := rfl
      rw [hh] at hc
      cases hc
      decide
    · rw [if_neg hn] at hc
      obtain ⟨d, ds, hd⟩ := List.exists_cons_of_ne_nil (natDigits_ne_nil n.natAbs)
      rw [hd] at hc
      have hh : ((d :: ds) ++ ".000000".data).head? = some d := rfl
      rw [hh] at hc
      have hdc := Option.some.inj hc
      rw [← hdc]
      exact (natDigits_props n.natAbs d (hd ▸ List.mem_cons_self d ds)).2.1
  · intro c hc
    have hshape : encode_fakefloat n = (intToDec n ++ ".00000".data) ++ ['0'] := by
      unfold encode_fakefloat
      rw [show (".000000".data : List Char) = ".00000".data ++ ['0'] from rfl,
        ← List.append_assoc]
    rw [hshape, List.getLast?_concat] at hc
    cases hc
    decide

theorem encode_no_nl (n : Int) : '\n' ∉ encode_fakefloat n := by
  intro hm
  unfold encode_fakefloat intToDec at hm
  have hsuf : '\n' ∉ (".000000".data : List Char) := by decide
  by_cases hn : n < 0
  · rw [if_pos hn] at hm
    rcases List.mem_append.mp hm with h | h
    · rcases List.mem_cons.mp h with h | h
      · exact absurd h (by decide)
      · exact (natDigits_props n.natAbs '\n' h).2.2.2.2.2 rfl
    · exact hsuf h
  · rw [if_neg hn] at hm
    rcases List.mem_append.mp hm with h | h
    · exact (natDigits_props n.natAbs '\n' h).2.2.2.2.2 rfl
    · exact hsuf h

theorem lowerStr_length (l : List Char) : (lowerStr l).length = l.length :=
  List.length_map l lowerCh

theorem asBoolWord_long {l : List Char} (h : 6 ≤ l.length) : asBoolWord l = none := by
  have hlen : (lowerStr l).length = l.length := lowerStr_length l
  have key : ∀ w : List Char, w.length ≤ 5 → ¬ (w = lowerStr l) := by
    intro w hw he
    have := congrArg List.length he
    rw [hlen] at this
    omega
  unfold asBoolWord boolWords
  simp only [findVal]
  rw [if_neg (key _ (by decide)), if_neg (key _ (by decide)), if_neg (key _ (by decide)),
    if_neg (key _ (by decide)), if_neg (key _ (by decide)), if_neg (key _ (by decide))]

theorem encode_length (n : Int) : 6 ≤ (encode_fakefloat n).length := by
  unfold encode_fakefloat
  rw [List.length_append]
  have : (".000000".data : List Char).length = 7 := rfl
  omega

theorem cleanVal_fakefloat (n : Int) :
    cleanVal (IValue.vstr (encode_fakefloat n)) :=
  ⟨⟨encode_pstrip n, encode_no_nl n⟩, asBoolWord_long (encode_length n)⟩

theorem pyFloat_encode (n : Int) : pyFloat (encode_fakefloat n) = some ((n : ℚ)) := by
  have hps := encode_pstrip n
  have hsplit : splitAtChar '.' (natDigits n.natAbs ++ ".000000".data)
      = some (natDigits n.natAbs, "000000".data) := by
    rw [show (".000000".data : List Char) = '.' :: "000000".data from rfl]
    exact splitAtChar_append _ (fun hm => (natDigits_props n.natAbs '.' hm).2.2.1 rfl)
  have hfrac : digitsVal "000000".data = some 0 := rfl
  by_cases hn : n < 0
  · have hform : encode_fakefloat n = '-' :: (natDigits n.natAbs ++ ".000000".data) := by
      unfold encode_fakefloat intToDec
      rw [if_pos hn]
      rfl
    have habs : ((n.natAbs : ℚ)) = -(n : ℚ) := by
      have h1 : ((n.natAbs : ℤ)) = -n := Int.ofNat_natAbs_of_nonpos (le_of_lt hn)
      calc ((n.natAbs : ℚ)) = (((n.natAbs : ℤ) : ℚ)) := (Int.cast_natCast _).symm
        _ = -(n : ℚ) := by rw [h1]; push_cast; ring
    rw [hform] at hps ⊢
    simp only [pyFloat, hps, List.head?_cons]
    rw [if_pos (Or.inl trivial)]
    simp only [List.drop_succ_cons, List.drop_zero, hsplit, digitsVal_natDigits, hfrac]
    simp only [Option.some.injEq]
    rw [habs]
    norm_num
  · have hform : encode_fakefloat n = natDigits n.natAbs ++ ".000000".data := by
      unfold encode_fakefloat intToDec
      rw [if_neg hn]
    obtain ⟨d, ds, hd⟩ := List.exists_cons_of_ne_nil (natDigits_ne_nil n.natAbs)
    have hdprops := natDigits_props n.natAbs d (hd ▸ List.mem_cons_self d ds)
    have hdv : digitsVal (d :: ds) = some n.natAbs := by
      rw [← hd]
      exact digitsVal_natDigits n.natAbs
    have habs : ((n.natAbs : ℚ)) = (n : ℚ) := by
      have h1 : ((n.natAbs : ℤ)) = n := Int.natAbs_of_nonneg (not_lt.mp hn)
      calc ((n.natAbs : ℚ)) = (((n.natAbs : ℤ) : ℚ)) := (Int.cast_natCast _).symm
        _ = (n : ℚ) := by rw [h1]
    rw [hform] at hps ⊢
    rw [hd] at hps hsplit ⊢
    simp only [List.cons_append] at hps hsplit ⊢
    have hsgn : ¬ ((d :: (ds ++ ".000000".data)).head? = some '-'
        ∨ (d :: (ds ++ ".000000".data)).head? = some '+') := by
      intro hor
      rcases hor with h | h
      · exact hdprops.2.2.2.1 (Option.some.inj (by simpa using h))
      · exact hdprops.2.2.2.2.1 (Option.some.inj (by simpa using h))
    simp only [pyFloat, hps]
    rw [if_neg hsgn]
    simp only [hsplit, hdv, hfrac]
    have hsgn2 : (decide ((d :: (ds ++ ".000000".data)).head? = some '-')) = false := by
      simp [hdprops.2.2.2.1]
    simp only [hsgn2, Option.some.injEq]
    rw [habs]
    norm_num

theorem decode_encode (n : Int) :
    decode_fakefloat (IValue.vstr (encode_fakefloat n)) = some n := by
  show Option.map pyRound (pyFloat (encode_fakefloat n)) = some n
  rw [pyFloat_encode]
  show some (pyRound ((n : ℚ))) = some n
  rw [pyRound_intCast]

/-! ### Cleanliness of the encoded `PlayerProperties` values -/

theorem pcat_no_nl (c : PCat) : ¬ '\n' ∈ pcatValue c := by
  cases c <;> decide

theorem getLast?_cons_concat {a b : Char} (l : List Char) :
    (a :: (l ++ [b])).getLast? = some b := by
  rw [show a :: (l ++ [b]) = (a :: l) ++ [b] from rfl, List.getLast?_concat]

theorem pp_to_string_pstrip (p : PlayerProps) :
    pstrip (pp_to_string p) = pp_to_string p := by
  apply pstrip_eq_self
  · intro c hc
    rw [pp_to_string_shape] at hc
    simp only [List.cons_append, List.head?_cons, Option.some.injEq] at hc
    rw [← hc]
    decide
  · intro c hc
    rw [pp_to_string_shape, List.getLast?_concat] at hc
    cases hc
    decide

theorem pp_to_string_no_nl {p : PlayerProps} (hp : ppClean p) :
    '\n' ∉ pp_to_string p := by
  intro hm
  unfold pp_to_string at hm
  rcases List.mem_append.mp hm with h | h
  swap
  · exact absurd h (by decide)
  rcases List.mem_cons.mp h with h | h
  · exact absurd h (by decide)
  rcases List.mem_append.mp h with h | h
  swap
  · exact absurd h (by decide)
  rcases List.mem_append.mp h with h | h
  swap
  · exact hp.2.2.2.2.2 h
  rcases List.mem_append.mp h with h | h
  swap
  · exact absurd h (by decide)
  rcases List.mem_append.mp h with h | h
  swap
  · exact hp.2.1.2.2.2 h
  rcases List.mem_append.mp h with h | h
  swap
  · exact absurd h (by decide)
  rcases List.mem_append.mp h with h | h
  swap
  · exact pcat_no_nl p.PlayerCategory h
  rcases List.mem_append.mp h with h | h
  swap
  · exact absurd h (by decide)
  rcases List.mem_append.mp h with h | h
  · exact absurd h (by decide)
  · exact hp.1.2.2.2 h

theorem pp_to_string_len (p : PlayerProps) : 6 ≤ (pp_to_string p).length := by
  unfold pp_to_string
  simp only [List.length_cons, List.length_append]
  have hA : ("PlayerFirstJoinName=\"".data : List Char).length = 21 := rfl
  omega

theorem cleanVal_pp {p : PlayerProps} (hp : ppClean p) :
    cleanVal (IValue.vstr (pp_to_string p)) :=
  ⟨⟨pp_to_string_pstrip p, pp_to_string_no_nl hp⟩, asBoolWord_long (pp_to_string_len p)⟩

theorem cleanEntry_ppenc {pps : List PlayerProps} (h : ∀ p ∈ pps, ppClean p)
    (hne : pps ≠ []) : cleanEntry (pp_list_encoder pps) := by
  cases pps with
  | nil => exact absurd rfl hne
  | cons p rest =>
    cases rest with
    | nil => exact cleanVal_pp (h p (List.mem_cons_self _ _))
    | cons q rest2 =>
      refine ⟨by simp [List.length_map], ?_⟩
      intro v hv
      rcases List.mem_map.mp hv with ⟨x, hx, rfl⟩
      exact cleanVal_pp (h x hx)

/-! ### The `PlayerProperties` list codec round trip -/

theorem mapM_pp (l : List PlayerProps) (h : ∀ p ∈ l, ppClean p) :
    (l.map (fun p => IValue.vstr (pp_to_string p))).mapM (fun v =>
      match v with
      | IValue.vstr s => pp_from_string s
      | IValue.vbool _ => none) = some l := by
  induction l with
  | nil => rfl
  | cons p rest ih =>
    simp only [List.map_cons, List.mapM_cons]
    rw [pp_from_to p (h p (List.mem_cons_self _ _))]
    rw [ih (fun q hq => h q (List.mem_cons_of_mem _ hq))]
    rfl

theorem pp_decoder_encoder (pps : List PlayerProps) (h : ∀ p ∈ pps, ppClean p) :
    pp_list_decoder (pp_list_encoder pps) = some pps := by
  cases pps with
  | nil => rfl
  | cons p rest =>
    cases rest with
    | nil =>
      show (pp_from_string (pp_to_string p)).map (fun q => [q]) = some [p]
      rw [pp_from_to p (h p (List.mem_cons_self _ _))]
      rfl
    | cons q rest2 => exact mapM_pp _ h

/-! ### `from_dict` inverts `to_dict` -/

theorem dsconfig_from_to (g pw : List Char) (c : DSConfig)
    (hpp : ∀ p ∈ c.PlayerProperties, ppClean p) :
    dsconfig_from_dict g pw (dsconfig_to_props c) = some c := by
  cases hE : c.ExitSemaphore with
  | none =>
    have hEx : dsPropsExit c = [] := by simp [dsPropsExit, hE]
    rw [dsconfig_to_props_eq, hEx]
    have hf1 : decodeFF 30 (findVal (dsPropsCore c ++ [] ++
        [("PlayerProperties".data, pp_list_encoder c.PlayerProperties)])
        "MaxServerFramerate".data) = some c.MaxServerFramerate := by
      show decode_fakefloat (IValue.vstr (encode_fakefloat c.MaxServerFramerate)) = _
      exact decode_encode _
    have hf2 : decodeFF 3 (findVal (dsPropsCore c ++ [] ++
        [("PlayerProperties".data, pp_list_encoder c.PlayerProperties)])
        "MaxServerIdleFramerate".data) = some c.MaxServerIdleFramerate := by
      show decode_fakefloat (IValue.vstr (encode_fakefloat c.MaxServerIdleFramerate)) = _
      exact decode_encode _
    have hf3 : decodePP (findVal (dsPropsCore c ++ [] ++
        [("PlayerProperties".data, pp_list_encoder c.PlayerProperties)])
        "PlayerProperties".data) = some c.PlayerProperties := by
      show pp_list_decoder (pp_list_encoder c.PlayerProperties) = _
      exact pp_decoder_encoder _ hpp
    simp only [dsconfig_from_dict, hf1, hf2, hf3]
    have hfE : findVal (dsPropsCore c ++ [] ++
        [("PlayerProperties".data, pp_list_encoder c.PlayerProperties)])
        "ExitSemaphore".data = none := rfl
    rw [hfE, ← hE]
    rfl
  | some e =>
    have hEx : dsPropsExit c = [("ExitSemaphore".data, e)] := by simp [dsPropsExit, hE]
    rw [dsconfig_to_props_eq, hEx]
    have hf1 : decodeFF 30 (findVal (dsPropsCore c ++ [("ExitSemaphore".data, e)] ++
        [("PlayerProperties".data, pp_list_encoder c.PlayerProperties)])
        "MaxServerFramerate".data) = some c.MaxServerFramerate := by
      show decode_fakefloat (IValue.vstr (encode_fakefloat c.MaxServerFramerate)) = _
      exact decode_encode _
    have hf2 : decodeFF 3 (findVal (dsPropsCore c ++ [("ExitSemaphore".data, e)] ++
        [("PlayerProperties".data, pp_list_encoder c.PlayerProperties)])
        "MaxServerIdleFramerate".data) = some c.MaxServerIdleFramerate := by
      show decode_fakefloat (IValue.vstr (encode_fakefloat c.MaxServerIdleFramerate)) = _
      exact decode_encode _
    have hf3 : decodePP (findVal (dsPropsCore c ++ [("ExitSemaphore".data, e)] ++
        [("PlayerProperties".data, pp_list_encoder c.PlayerProperties)])
        "PlayerProperties".data) = some c.PlayerProperties := by
      show pp_list_decoder (pp_list_encoder c.PlayerProperties) = _
      exact pp_decoder_encoder _ hpp
    simp only [dsconfig_from_dict, hf1, hf2, hf3]
    have hfE : findVal (dsPropsCore c ++ [("ExitSemaphore".data, e)] ++
        [("PlayerProperties".data, pp_list_encoder c.PlayerProperties)])
        "ExitSemaphore".data = some e := rfl
    rw [hfE, ← hE]
    rfl

theorem dsconfig_from_to_nil (g pw : List Char) (c : DSConfig)
    (hnil : c.PlayerProperties = []) :
    dsconfig_from_dict g pw (dsPropsCore c ++ dsPropsExit c) = some c := by
  cases hE : c.ExitSemaphore with
  | none =>
    have hEx : dsPropsExit c = [] := by simp [dsPropsExit, hE]
    rw [hEx]
    have hf1 : decodeFF 30 (findVal (dsPropsCore c ++ [])
        "MaxServerFramerate".data) = some c.MaxServerFramerate := by
      show decode_fakefloat (IValue.vstr (encode_fakefloat c.MaxServerFramerate)) = _
      exact decode_encode _
    have hf2 : decodeFF 3 (findVal (dsPropsCore c ++ [])
        "MaxServerIdleFramerate".data) = some c.MaxServerIdleFramerate := by
      show decode_fakefloat (IValue.vstr (encode_fakefloat c.MaxServerIdleFramerate)) = _
      exact decode_encode _
    have hf3 : decodePP (findVal (dsPropsCore c ++ [])
        "PlayerProperties".data) = some ([] : List PlayerProps) := rfl
    simp only [dsconfig_from_dict, hf1, hf2, hf3]
    have hfE : findVal (dsPropsCore c ++ []) "ExitSemaphore".data = none := rfl
    rw [hfE, ← hE, ← hnil]
    rfl
  | some e =>
    have hEx : dsPropsExit c = [("ExitSemaphore".data, e)] := by simp [dsPropsExit, hE]
    rw [hEx]
    have hf1 : decodeFF 30 (findVal (dsPropsCore c ++ [("ExitSemaphore".data, e)])
        "MaxServerFramerate".data) = some c.MaxServerFramerate := by
      show decode_fakefloat (IValue.vstr (encode_fakefloat c.MaxServerFramerate)) = _
      exact decode_encode _
    have hf2 : decodeFF 3 (findVal (dsPropsCore c ++ [("ExitSemaphore".data, e)])
        "MaxServerIdleFramerate".data) = some c.MaxServerIdleFramerate := by
      show decode_fakefloat (IValue.vstr (encode_fakefloat c.MaxServerIdleFramerate)) = _
      exact decode_encode _
    have hf3 : decodePP (findVal (dsPropsCore c ++ [("ExitSemaphore".data, e)])
        "PlayerProperties".data) = some ([] : List PlayerProps) := rfl
    simp only [dsconfig_from_dict, hf1, hf2, hf3]
    have hfE : findVal (dsPropsCore c ++ [("ExitSemaphore".data, e)])
        "ExitSemaphore".data = some e := rfl
    rw [hfE, ← hE, ← hnil]
    rfl

/-! ### Well-formedness of the written section -/

theorem cleanEntry_core_mem (c : DSConfig) (hc : CleanCfg c) :
    ∀ kv ∈ dsPropsCore c, cleanKey kv.1 ∧ cleanEntry kv.2 := by
  obtain ⟨g1, g2, g3, g4, g5, g6, g7, g8, g9, g10, g11, g12, g13, g14, g15,
    g16, g17, g18, g19, g20, gEx⟩ := hc
  intro kv hkv
  simp only [dsPropsCore, List.mem_cons, List.mem_singleton] at hkv
  rcases hkv with rfl | rfl | rfl | rfl | rfl | rfl | rfl | rfl | rfl | rfl | rfl | rfl
    | rfl | rfl | rfl | rfl | rfl | rfl | rfl | rfl | rfl | rfl | h
  · exact ⟨of_decide_eq_true rfl, g1⟩
  · exact ⟨of_decide_eq_true rfl, cleanVal_fakefloat c.MaxServerFramerate⟩
  · exact ⟨of_decide_eq_true rfl, cleanVal_fakefloat c.MaxServerIdleFramerate⟩
  · exact ⟨of_decide_eq_true rfl, g2⟩
  · exact ⟨of_decide_eq_true rfl, g3⟩
  · exact ⟨of_decide_eq_true rfl, g4⟩
  · exact ⟨of_decide_eq_true rfl, g5⟩
  · exact ⟨of_decide_eq_true rfl, g6⟩
  · exact ⟨of_decide_eq_true rfl, g7⟩
  · exact ⟨of_decide_eq_true rfl, g8⟩
  · exact ⟨of_decide_eq_true rfl, g9⟩
  · exact ⟨of_decide_eq_true rfl, g10⟩
  · exact ⟨of_decide_eq_true rfl, g11⟩
  · exact ⟨of_decide_eq_true rfl, g12⟩
  · exact ⟨of_decide_eq_true rfl, g13⟩
  · exact ⟨of_decide_eq_true rfl, g14⟩
  · exact ⟨of_decide_eq_true rfl, g15⟩
  · exact ⟨of_decide_eq_true rfl, g16⟩
  · exact ⟨of_decide_eq_true rfl, g17⟩
  · exact ⟨of_decide_eq_true rfl, g18⟩
  · exact ⟨of_decide_eq_true rfl, g19⟩
  · exact ⟨of_decide_eq_true rfl, g20⟩
  · exact absurd h (List.not_mem_nil kv)

theorem cleanEntry_exit_mem (c : DSConfig) (hc : CleanCfg c) :
    ∀ kv ∈ dsPropsExit c, cleanKey kv.1 ∧ cleanEntry kv.2 := by
  intro kv hkv
  cases hE : c.ExitSemaphore with
  | none =>
    rw [show dsPropsExit c = [] from by simp [dsPropsExit, hE]] at hkv
    exact absurd hkv (List.not_mem_nil kv)
  | some e =>
    rw [show dsPropsExit c = [("ExitSemaphore".data, e)] from by
      simp [dsPropsExit, hE]] at hkv
    rw [List.mem_singleton.mp hkv]
    exact ⟨of_decide_eq_true rfl, hc.2.2.2.2.2.2.2.2.2.2.2.2.2.2.2.2.2.2.2.2 e hE⟩

theorem WFProps_to_props (c : DSConfig) (hc : CleanCfg c)
    (hpp : ∀ p ∈ c.PlayerProperties, ppClean p) (hne : c.PlayerProperties ≠ []) :
    WFProps (dsconfig_to_props c) := by
  rw [dsconfig_to_props_eq]
  constructor
  · cases hE : c.ExitSemaphore with
    | none =>
      rw [show dsPropsExit c = [] from by simp [dsPropsExit, hE]]
      exact of_decide_eq_true rfl
    | some e =>
      rw [show dsPropsExit c = [("ExitSemaphore".data, e)] from by
        simp [dsPropsExit, hE]]
      exact of_decide_eq_true rfl
  · intro kv hkv
    rcases List.mem_append.mp hkv with h | h
    · rcases List.mem_append.mp h with h | h
      · exact cleanEntry_core_mem c hc kv h
      · exact cleanEntry_exit_mem c hc kv h
    · rw [List.mem_singleton.mp h]
      exact ⟨of_decide_eq_true rfl, cleanEntry_ppenc hpp hne⟩

theorem WFProps_core_exit (c : DSConfig) (hc : CleanCfg c) :
    WFProps (dsPropsCore c ++ dsPropsExit c) := by
  constructor
  · cases hE : c.ExitSemaphore with
    | none =>
      rw [show dsPropsExit c = [] from by simp [dsPropsExit, hE]]
      exact of_decide_eq_true rfl
    | some e =>
      rw [show dsPropsExit c = [("ExitSemaphore".data, e)] from by
        simp [dsPropsExit, hE]]
      exact of_decide_eq_true rfl
  · intro kv hkv
    rcases List.mem_append.mp hkv with h | h
    · exact cleanEntry_core_mem c hc kv h
    · exact cleanEntry_exit_mem c hc kv h

theorem WFIni_to_props (c : DSConfig) (hc : CleanCfg c)
    (hpp : ∀ p ∈ c.PlayerProperties, ppClean p) (hne : c.PlayerProperties ≠ []) :
    WFIni [(dsSection, dsconfig_to_props c)] := by
  constructor
  · exact of_decide_eq_true rfl
  · intro sp hsp
    rw [List.mem_singleton.mp hsp]
    exact ⟨of_decide_eq_true rfl, WFProps_to_props c hc hpp hne⟩

theorem WFIni_core_exit (c : DSConfig) (hc : CleanCfg c) :
    WFIni [(dsSection, dsPropsCore c ++ dsPropsExit c)] := by
  constructor
  · exact of_decide_eq_true rfl
  · intro sp hsp
    rw [List.mem_singleton.mp hsp]
    exact ⟨of_decide_eq_true rfl, WFProps_core_exit c hc⟩

theorem fileWrite_drop_nil_pp (c : DSConfig) (hnil : c.PlayerProperties = []) :
    fileWrite [(dsSection, dsconfig_to_props c)]
      = fileWrite [(dsSection, dsPropsCore c ++ dsPropsExit c)] := by
  rw [dsconfig_to_props_eq, hnil]
  show fileWrite [(dsSection, dsPropsCore c ++ dsPropsExit c
    ++ [("PlayerProperties".data, VEntry.vlist [])])] = _
  unfold fileWrite writeIni
  simp only [List.flatMap_cons, List.flatMap_nil, List.flatMap_append]
  simp [renderProp]

/-! ### `fixPublicIP` -/

theorem fixPublicIP_idem (o : Bool) (r : Option (List Char)) (pOK : VEntry → Bool)
    (c : DSConfig) :
    fixPublicIP o r pOK (fixPublicIP o r pOK c) = fixPublicIP o r pOK c := by
  by_cases h1 : (o = true ∨ ¬ pOK c.PublicIP = true)
  · cases r with
    | none =>
      have hc : fixPublicIP o none pOK c = c := by
        unfold fixPublicIP
        rw [if_pos h1]
      rw [hc, hc]
    | some ip =>
      have hc : fixPublicIP o (some ip) pOK c
          = { c with PublicIP := VEntry.scalar (IValue.vstr ip) } := by
        unfold fixPublicIP
        rw [if_pos h1]
      rw [hc]
      by_cases h2 : (o = true ∨ ¬ pOK (VEntry.scalar (IValue.vstr ip)) = true)
      · unfold fixPublicIP
        rw [if_pos h2]
      · unfold fixPublicIP
        rw [if_neg h2]
  · have hc : fixPublicIP o r pOK c = c := by
      unfold fixPublicIP
      rw [if_neg h1]
    rw [hc, hc]

theorem fixPublicIP_V (o : Bool) (r : Option (List Char)) (pOK : VEntry → Bool)
    (c : DSConfig) :
    (fixPublicIP o r pOK c).VerbosePlayerProperties = c.VerbosePlayerProperties := by
  unfold fixPublicIP
  split
  · cases r <;> rfl
  · rfl

theorem fixPublicIP_clean {o : Bool} {r : Option (List Char)} {pOK : VEntry → Bool}
    {c : DSConfig} (hc : CleanCfg c)
    (hres : ∀ ip, r = some ip → cleanEntry (VEntry.scalar (IValue.vstr ip))) :
    CleanCfg (fixPublicIP o r pOK c) := by
  unfold fixPublicIP
  split
  · cases hr : r with
    | none => exact hc
    | some ip =>
      obtain ⟨g1, g2, g3, g4, g5, g6, g7, g8, g9, g10, g11, g12, g13, g14, g15,
        g16, g17, g18, g19, g20, gEx⟩ := hc
      exact ⟨g1, g2, hres ip hr, g4, g5, g6, g7, g8, g9, g10, g11, g12, g13, g14,
        g15, g16, g17, g18, g19, g20, gEx⟩
  · exact hc

/-! ### Cleanliness through `ensure_config` -/

theorem CleanCfg_default (g pw : List Char)
    (hg : cleanEntry (VEntry.scalar (IValue.vstr g)))
    (hp : cleanEntry (VEntry.scalar (IValue.vstr pw))) :
    CleanCfg (defaultDSConfig g pw) :=
  ⟨of_decide_eq_true rfl, of_decide_eq_true rfl, of_decide_eq_true rfl,
   of_decide_eq_true rfl, of_decide_eq_true rfl, of_decide_eq_true rfl,
   of_decide_eq_true rfl, of_decide_eq_true rfl, of_decide_eq_true rfl,
   of_decide_eq_true rfl, of_decide_eq_true rfl, of_decide_eq_true rfl,
   of_decide_eq_true rfl, of_decide_eq_true rfl, hg, of_decide_eq_true rfl,
   of_decide_eq_true rfl, of_decide_eq_true rfl, hp, of_decide_eq_true rfl,
   fun _ he => Option.noConfusion he⟩

theorem CleanCfg_force {c : DSConfig} (hc : CleanCfg c) : CleanCfg (forceFields c) := by
  obtain ⟨g1, g2, g3, g4, g5, g6, g7, g8, g9, g10, g11, g12, g13, g14, g15,
    g16, g17, g18, g19, g20, gEx⟩ := hc
  exact ⟨g1, g2, g3, g4, g5, g6, g7, g8, g9, g10, g11, of_decide_eq_true rfl,
    g13, g14, g15, g16, g17, g18, g19, g20, gEx⟩

theorem findVal_getD_clean {ps : Props} (hps : WFProps ps) {k : List Char}
    {d : VEntry} (hd : cleanEntry d) :
    cleanEntry ((findVal ps k).getD d) := by
  cases hv : findVal ps k with
  | none => exact hd
  | some v => exact (hps.2 _ (findVal_mem hv)).2

theorem WFProps_read_section (content : List Char) (s : List Char) :
    WFProps ((findVal (fileRead content) s).getD []) := by
  cases hv : findVal (fileRead content) s with
  | none =>
    refine ⟨List.nodup_nil, ?_⟩
    intro kv hkv
    exact absurd hkv (List.not_mem_nil kv)
  | some ps => exact ((WFIni_fileRead content).2 _ (findVal_mem hv)).2

theorem from_dict_clean {g pw : List Char} {ps : Props} {c : DSConfig}
    (hps : WFProps ps)
    (hg : cleanEntry (VEntry.scalar (IValue.vstr g)))
    (hp : cleanEntry (VEntry.scalar (IValue.vstr pw)))
    (h : dsconfig_from_dict g pw ps = some c) : CleanCfg c := by
  unfold dsconfig_from_dict at h
  cases h1 : decodeFF 30 (findVal ps "MaxServerFramerate".data) with
  | none => rw [h1] at h; simp at h
  | some f1 =>
  cases h2 : decodeFF 3 (findVal ps "MaxServerIdleFramerate".data) with
  | none => rw [h1, h2] at h; simp at h
  | some f2 =>
  cases h3 : decodePP (findVal ps "PlayerProperties".data) with
  | none => rw [h1, h2, h3] at h; simp at h
  | some pps =>
  rw [h1, h2, h3] at h
  simp only [Option.some.injEq] at h
  rw [← h]
  refine ⟨findVal_getD_clean hps (of_decide_eq_true rfl),
    findVal_getD_clean hps (of_decide_eq_true rfl),
    findVal_getD_clean hps (of_decide_eq_true rfl),
    findVal_getD_clean hps (of_decide_eq_true rfl),
    findVal_getD_clean hps (of_decide_eq_true rfl),
    findVal_getD_clean hps (of_decide_eq_true rfl),
    findVal_getD_clean hps (of_decide_eq_true rfl),
    findVal_getD_clean hps (of_decide_eq_true rfl),
    findVal_getD_clean hps (of_decide_eq_true rfl),
    findVal_getD_clean hps (of_decide_eq_true rfl),
    findVal_getD_clean hps (of_decide_eq_true rfl),
    findVal_getD_clean hps (of_decide_eq_true rfl),
    findVal_getD_clean hps (of_decide_eq_true rfl),
    findVal_getD_clean hps (of_decide_eq_true rfl),
    findVal_getD_clean hps hg,
    findVal_getD_clean hps (of_decide_eq_true rfl),
    findVal_getD_clean hps (of_decide_eq_true rfl),
    findVal_getD_clean hps (of_decide_eq_true rfl),
    findVal_getD_clean hps hp,
    findVal_getD_clean hps (of_decide_eq_true rfl), ?_⟩
  intro e he
  exact (hps.2 _ (findVal_mem he)).2

theorem ensure_config_spec {fe : Bool} {content : List Char} {o : Bool}
    {r : Option (List Char)} {pOK : VEntry → Bool} {g pw : List Char}
    {c1 : DSConfig} {w1 : List Char}
    (h : ensure_config fe content o r pOK g pw = some (c1, w1))
    (hg : cleanEntry (VEntry.scalar (IValue.vstr g)))
    (hp : cleanEntry (VEntry.scalar (IValue.vstr pw)))
    (hres : ∀ ip, r = some ip → cleanEntry (VEntry.scalar (IValue.vstr ip))) :
    w1 = fileWrite [(dsSection, dsconfig_to_props c1)]
      ∧ fixPublicIP o r pOK c1 = c1
      ∧ c1.VerbosePlayerProperties = VEntry.scalar (IValue.vbool true)
      ∧ CleanCfg c1 := by
  unfold ensure_config at h
  rcases Option.map_eq_some'.mp h with ⟨c0, hc0, hpair⟩
  have hpair' : (fixPublicIP o r pOK c0,
      fileWrite [(dsSection, dsconfig_to_props (fixPublicIP o r pOK c0))])
      = (c1, w1) := hpair
  have hcc : fixPublicIP o r pOK c0 = c1 := congrArg Prod.fst hpair'
  have hww : fileWrite [(dsSection, dsconfig_to_props (fixPublicIP o r pOK c0))]
      = w1 := congrArg Prod.snd hpair'
  have hc0V : c0.VerbosePlayerProperties = VEntry.scalar (IValue.vbool true)
      ∧ CleanCfg c0 := by
    cases fe with
    | false =>
      rw [if_neg (by decide)] at hc0
      have hdef : defaultDSConfig g pw = c0 := Option.some.inj hc0
      rw [← hdef]
      exact ⟨rfl, CleanCfg_default g pw hg hp⟩
    | true =>
      rw [if_pos rfl] at hc0
      rcases Option.map_eq_some'.mp hc0 with ⟨cr, hcr, hfc⟩
      have hcl : CleanCfg cr :=
        from_dict_clean (WFProps_read_section content dsSection) hg hp hcr
      rw [← hfc]
      exact ⟨rfl, CleanCfg_force hcl⟩
  refine ⟨?_, ?_, ?_, ?_⟩
  · rw [← hww, hcc]
  · rw [← hcc]
    exact fixPublicIP_idem o r pOK c0
  · rw [← hcc, fixPublicIP_V]
    exact hc0V.1
  · rw [← hcc]
    exact fixPublicIP_clean hc0V.2 hres

set_option maxRecDepth 8192 in
/-- C7 counterexample: on a pre-existing file whose `PlayerProperties`
entry holds a first-join name containing one double quote (`a"b`), the
second `ensure_config` call writes a different file (and decodes a
different config) than the first: the first call writes the name
re-wrapped in quotes (`"a"b"`), and the non-greedy quote-removal regex
of `from_string` then turns it into `ab"`. -/
theorem C7_counterexample :
    ensure_config true cexContent false none (fun _ => true) [] []
      = some (cexCfg cexP1, cexFile cexP1)
    ∧ ensure_config true (cexFile cexP1) false none (fun _ => true) [] []
      = some (cexCfg cexP2, cexFile cexP2)
    ∧ cexFile cexP2 ≠ cexFile cexP1 := by
  refine ⟨rfl, ?_, by decide⟩
  unfold ensure_config
  rw [if_pos rfl]
  rw [show (findVal (fileRead (cexFile cexP1)) dsSection).getD []
      = dsconfig_to_props (cexCfg cexP1) from rfl]
  have h1 : decodeFF 30 (findVal (dsconfig_to_props (cexCfg cexP1))
      "MaxServerFramerate".data) = some 30 := by
    show decode_fakefloat (IValue.vstr (encode_fakefloat 30)) = some 30
    exact decode_encode 30
  have h2 : decodeFF 3 (findVal (dsconfig_to_props (cexCfg cexP1))
      "MaxServerIdleFramerate".data) = some 3 := by
    show decode_fakefloat (IValue.vstr (encode_fakefloat 3)) = some 3
    exact decode_encode 3
  have h3 : decodePP (findVal (dsconfig_to_props (cexCfg cexP1))
      "PlayerProperties".data) = some [cexP2] := rfl
  have hfd : dsconfig_from_dict [] [] (dsconfig_to_props (cexCfg cexP1))
      = some (cexCfg cexP2) := by
    simp only [dsconfig_from_dict, h1, h2, h3]
    rfl
  rw [hfd]
  rw [show (some (cexCfg cexP2)).map forceFields = some (cexCfg cexP2) from rfl]
  show some (fixPublicIP false none (fun _ => true) (cexCfg cexP2),
    fileWrite [(dsSection, dsconfig_to_props
      (fixPublicIP false none (fun _ => true) (cexCfg cexP2)))])
    = some (cexCfg cexP2, cexFile cexP2)
  rw [show fixPublicIP false none (fun _ => true) (cexCfg cexP2)
      = cexCfg cexP2 from rfl]
  rfl

/-- C7 (amended): `ensure_config` is idempotent on its own output under
the cleanliness conditions the codecs require: if the string fields of
every decoded `PlayerProperties` entry are free of commas, quotes and
newlines, and the `uuid` defaults and any resolved public IP are clean
INI tokens, then a second call on the file written by a first call
returns the same config and writes an identical file. -/
theorem C7_ensure_config_idem
    (fe : Bool) (content : List Char) (o : Bool) (r : Option (List Char))
    (pOK : VEntry → Bool) (g pw : List Char) (c1 : DSConfig) (w1 : List Char)
    (h1 : ensure_config fe content o r pOK g pw = some (c1, w1))
    (hg : cleanEntry (VEntry.scalar (IValue.vstr g)))
    (hp : cleanEntry (VEntry.scalar (IValue.vstr pw)))
    (hres : ∀ ip, r = some ip → cleanEntry (VEntry.scalar (IValue.vstr ip)))
    (hpp : ∀ p ∈ c1.PlayerProperties, ppClean p) :
    ensure_config true w1 o r pOK g pw = some (c1, w1) := by
  obtain ⟨hw, hfix, hV, hclean⟩ := ensure_config_spec h1 hg hp hres
  have hforce : forceFields c1 = c1 := by
    show { c1 with VerbosePlayerProperties := VEntry.scalar (IValue.vbool true) } = c1
    rw [← hV]
  by_cases hnil : c1.PlayerProperties = []
  · have hread : fileRead w1 = [(dsSection, dsPropsCore c1 ++ dsPropsExit c1)] := by
      rw [hw, fileWrite_drop_nil_pp c1 hnil,
        fileRead_fileWrite (WFIni_core_exit c1 hclean)]
    have hbranch : (dsconfig_from_dict g pw
        ((findVal (fileRead w1) dsSection).getD [])).map forceFields = some c1 := by
      rw [hread]
      rw [show findVal [(dsSection, dsPropsCore c1 ++ dsPropsExit c1)] dsSection
          = some (dsPropsCore c1 ++ dsPropsExit c1) from by
        unfold findVal
        rw [if_pos rfl]]
      rw [show (some (dsPropsCore c1 ++ dsPropsExit c1)).getD ([] : Props)
          = dsPropsCore c1 ++ dsPropsExit c1 from rfl]
      rw [dsconfig_from_to_nil g pw c1 hnil]
      rw [show (some c1).map forceFields = some (forceFields c1) from rfl, hforce]
    unfold ensure_config
    rw [if_pos rfl, hbranch]
    show some (fixPublicIP o r pOK c1,
      fileWrite [(dsSection, dsconfig_to_props (fixPublicIP o r pOK c1))])
      = some (c1, w1)
    rw [hfix, ← hw]
  · have hread : fileRead w1 = [(dsSection, dsconfig_to_props c1)] := by
      rw [hw, fileRead_fileWrite (WFIni_to_props c1 hclean hpp hnil)]
    have hbranch : (dsconfig_from_dict g pw
        ((findVal (fileRead w1) dsSection).getD [])).map forceFields = some c1 := by
      rw [hread]
      rw [show findVal [(dsSection, dsconfig_to_props c1)] dsSection
          = some (dsconfig_to_props c1) from by
        unfold findVal
        rw [if_pos rfl]]
      rw [show (some (dsconfig_to_props c1)).getD ([] : Props)
          = dsconfig_to_props c1 from rfl]
      rw [dsconfig_from_to g pw c1 hpp]
      rw [show (some c1).map forceFields = some (forceFields c1) from rfl, hforce]
    unfold ensure_config
    rw [if_pos rfl, hbranch]
    show some (fixPublicIP o r pOK c1,
      fileWrite [(dsSection, dsconfig_to_props (fixPublicIP o r pOK c1))])
      = some (c1, w1)
    rw [hfix, ← hw]

/-- C7 witness: the no-file path with a resolved public IP; the second
call on the written default config returns the identical pair. -/
theorem C7_ensure_config_idem_witness :
    ensure_config true
      (fileWrite [(dsSection, dsconfig_to_props (fixPublicIP false
        (some "1.2.3.4".data) (fun _ => true) (defaultDSConfig "g".data "p".data)))])
      false (some "1.2.3.4".data) (fun _ => true) "g".data "p".data
    = some (fixPublicIP false (some "1.2.3.4".data) (fun _ => true)
        (defaultDSConfig "g".data "p".data),
      fileWrite [(dsSection, dsconfig_to_props (fixPublicIP false
        (some "1.2.3.4".data) (fun _ => true) (defaultDSConfig "g".data "p".data)))]) :=
  C7_ensure_config_idem false [] false (some "1.2.3.4".data) (fun _ => true)
    "g".data "p".data _ _ rfl (of_decide_eq_true rfl) (of_decide_eq_true rfl)
    (fun ip hip => by
      cases hip
      exact of_decide_eq_true rfl)
    (fun p hpm =>
      absurd (show p ∈ ([] : List PlayerProps) from hpm) (List.not_mem_nil p))

end AstroTux
